import Mathlib

/-!
# PageRank, monolithic sequential loop (`pagerankMonolithicSeq.hxx`)

A shallow embedding of the convergence loop `pagerankMonolithicSeqLoop` and of the
two orchestrations `pagerankMonolithicSeq` / `pagerankMonolithicSeqDynamic`.

* `vector<T>` is a `List T`; the numeric type `T` is an arbitrary linearly ordered
  field, i.e. exact arithmetic (evaluated over `ℚ`), in which a division by zero yields
  `0`.  Two refinements are added where a property depends on them: `float` and `double`
  are the rationals with every kernel operation rounded by `roundFloat` (`floatKernels`),
  and a division by zero is made observable by `checkedDiv`
  (`pagerankMonolithicSeqLoopChecked`).
* The three numeric kernels called by the loop (`pagerankCalculate`, `pagerankError`,
  `multiply`) are not part of the translation unit; the loop is embedded over an
  arbitrary bundle `Kernels T` of them.  A kernel writes at most its first argument (the
  output vector of its call site), so its embedding takes the old vector and returns the
  new one.
* The references `a`, `r`, `c` are threaded as a `Buffers` value; `swap(a, r)`
  exchanges the two components.
* `int L`, `int l`, `int EF` are `Int`; the window `i`, `n` and the order `N` are `Nat`.
* The collaborators of the orchestrations (`pagerankSeq`, `dynamicVertices`,
  `transposeWithDegree`, `vertices`, `order`) are parameters as well.
-/

namespace PagerankMonolithic

/-- The numeric kernels the loop delegates to, in the argument order of their call sites. -/
structure Kernels (T : Type) where
  /-- `pagerankCalculate(a, c, vfrom, efrom, i, n, c0)`: returns the new `a`. -/
  pagerankCalculate : List T → List T → List Nat → List Nat → Nat → Nat → T → List T
  /-- `pagerankError(a, r, i, n, EF)`: returns the error scalar. -/
  pagerankError : List T → List T → Nat → Nat → Int → T
  /-- `multiply(c, a, f, i, n)`: returns the new `c`. -/
  multiply : List T → List T → List T → Nat → Nat → List T

/-- Kernels whose calls can fail: `none` stands for a division by zero inside the call. -/
structure CheckedKernels (T : Type) where
  /-- `pagerankCalculate(a, c, vfrom, efrom, i, n, c0)`: the new `a`, or a failure. -/
  pagerankCalculate : List T → List T → List Nat → List Nat → Nat → Nat → T → Option (List T)
  /-- `pagerankError(a, r, i, n, EF)`: the error scalar, or a failure. -/
  pagerankError : List T → List T → Nat → Nat → Int → Option T
  /-- `multiply(c, a, f, i, n)`: the new `c`, or a failure. -/
  multiply : List T → List T → List T → Nat → Nat → Option (List T)

/-- Kernels that perform no division, seen as checked kernels: every call succeeds. -/
def Kernels.checked {T : Type} (K : Kernels T) : CheckedKernels T :=
  ⟨fun a c vfrom efrom i n c0 => some (K.pagerankCalculate a c vfrom efrom i n c0),
   fun a r i n EF => some (K.pagerankError a r i n EF),
   fun c a f i n => some (K.multiply c a f i n)⟩

/-- The three vectors the loop mutates through its reference parameters. -/
structure Buffers (T : Type) where
  a : List T
  r : List T
  c : List T
deriving DecidableEq, Repr

section Loop

variable {T : Type} [LinearOrderedField T]

/-- The `while (l<L) { ... }` statement of `pagerankMonolithicSeqLoop`, started with the
buffers `s` and the counter `l`.  The first argument bounds the number of times the loop
condition is evaluated; `whileLoop_fuel_stable` shows that `L - l` is always enough. -/
def whileLoop (K : Kernels T) (f : List T) (vfrom efrom : List Nat) (i n : Nat)
    (c0 E : T) (L EF : Int) : Nat → Buffers T → Int → Buffers T × Int
  | 0, s, l => (s, l)
  | fuel + 1, s, l =>
    if l < L then
      let a1 := K.pagerankCalculate s.a s.c vfrom efrom i n c0
      let el := K.pagerankError a1 s.r i n EF
      let l1 := l + 1
      if el < E ∨ l1 ≥ L then (⟨a1, s.r, s.c⟩, l1)
      else whileLoop K f vfrom efrom i n c0 E L EF fuel ⟨s.r, a1, K.multiply s.c a1 f i n⟩ l1
    else (s, l)

/-- The function `pagerankMonolithicSeqLoop`: the final contents of the caller's `a`, `r`,
`c` and the returned `l`. -/
def pagerankMonolithicSeqLoop (K : Kernels T) (a r c f : List T) (vfrom efrom : List Nat)
    (i n N : Nat) (p E : T) (L EF : Int) : Buffers T × Int :=
  let c0 : T := (1 - p) / (N : T)
  whileLoop K f vfrom efrom i n c0 E L EF L.toNat ⟨a, r, c⟩ 0

/-- The buffers at the top of the loop body after `k` rounds that did not stop the loop
(each such round is: accumulate, measure, `multiply`, `swap`). -/
def roundStart (K : Kernels T) (f : List T) (vfrom efrom : List Nat) (i n : Nat) (c0 : T)
    (s0 : Buffers T) : Nat → Buffers T
  | 0 => s0
  | k + 1 =>
    let s := roundStart K f vfrom efrom i n c0 s0 k
    let a1 := K.pagerankCalculate s.a s.c vfrom efrom i n c0
    ⟨s.r, a1, K.multiply s.c a1 f i n⟩

/-- The estimate written by the `k`-th rank accumulation (`k ≥ 1`). -/
def estimate (K : Kernels T) (f : List T) (vfrom efrom : List Nat) (i n : Nat) (c0 : T)
    (s0 : Buffers T) (k : Nat) : List T :=
  let s := roundStart K f vfrom efrom i n c0 s0 (k - 1)
  K.pagerankCalculate s.a s.c vfrom efrom i n c0

/-- The error computed in iteration `k` (`k ≥ 1`): the `k`-th estimate against the
baseline `r` of that round. -/
def errorAt (K : Kernels T) (f : List T) (vfrom efrom : List Nat) (i n : Nat) (c0 : T)
    (EF : Int) (s0 : Buffers T) (k : Nat) : T :=
  K.pagerankError (estimate K f vfrom efrom i n c0 s0 k)
    (roundStart K f vfrom efrom i n c0 s0 (k - 1)).r i n EF

/-- The buffers the caller sees when the loop stops in iteration `m` (`m ≥ 1`). -/
def exitBuffers (K : Kernels T) (f : List T) (vfrom efrom : List Nat) (i n : Nat) (c0 : T)
    (s0 : Buffers T) (m : Nat) : Buffers T :=
  let s := roundStart K f vfrom efrom i n c0 s0 (m - 1)
  ⟨estimate K f vfrom efrom i n c0 s0 m, s.r, s.c⟩

/-- The operations a round of the loop performs, in program order: the two kernel calls
of every round, and the `multiply` call and the `swap` of a round that goes on. -/
inductive KernelCall where
  | calculate
  | error
  | multiply
  | swap
deriving DecidableEq, Repr

/-- One round that goes on: accumulate, measure, `multiply`, `swap`. -/
def fullRound : List KernelCall :=
  [KernelCall.calculate, KernelCall.error, KernelCall.multiply, KernelCall.swap]

/-- The round that stops the loop: accumulate, measure, `break`. -/
def lastRound : List KernelCall :=
  [KernelCall.calculate, KernelCall.error]

/-- The statement `while (l<L) { ... }` as in `whileLoop`, with a ghost log `t` to which
every kernel call and every `swap` is appended when it is performed. -/
def whileLoopTraced (K : Kernels T) (f : List T) (vfrom efrom : List Nat) (i n : Nat)
    (c0 E : T) (L EF : Int) :
    Nat → Buffers T → Int → List KernelCall → (Buffers T × Int) × List KernelCall
  | 0, s, l, t => ((s, l), t)
  | fuel + 1, s, l, t =>
    if l < L then
      let a1 := K.pagerankCalculate s.a s.c vfrom efrom i n c0
      let el := K.pagerankError a1 s.r i n EF
      let l1 := l + 1
      if el < E ∨ l1 ≥ L then ((⟨a1, s.r, s.c⟩, l1), t ++ lastRound)
      else whileLoopTraced K f vfrom efrom i n c0 E L EF fuel
        ⟨s.r, a1, K.multiply s.c a1 f i n⟩ l1 (t ++ fullRound)
    else ((s, l), t)

/-- The function `pagerankMonolithicSeqLoop` with the ghost log of its kernel calls. -/
def pagerankMonolithicSeqLoopTraced (K : Kernels T) (a r c f : List T)
    (vfrom efrom : List Nat) (i n N : Nat) (p E : T) (L EF : Int) :
    (Buffers T × Int) × List KernelCall :=
  let c0 : T := (1 - p) / (N : T)
  whileLoopTraced K f vfrom efrom i n c0 E L EF L.toNat ⟨a, r, c⟩ 0 []

/-- Division that fails on a zero divisor instead of returning a value. -/
def checkedDiv (x y : T) : Option T :=
  if y = 0 then none else some (x / y)

/-- The statement `while (l<L) { ... }` as in `whileLoop`, over kernels that can fail: a
failure of a kernel call ends the run with `none`. -/
def whileLoopChecked (K : CheckedKernels T) (f : List T) (vfrom efrom : List Nat) (i n : Nat)
    (c0 E : T) (L EF : Int) : Nat → Buffers T → Int → Option (Buffers T × Int)
  | 0, s, l => some (s, l)
  | fuel + 1, s, l =>
    if l < L then
      match K.pagerankCalculate s.a s.c vfrom efrom i n c0 with
      | none => none
      | some a1 =>
        match K.pagerankError a1 s.r i n EF with
        | none => none
        | some el =>
          let l1 := l + 1
          if el < E ∨ l1 ≥ L then some (⟨a1, s.r, s.c⟩, l1)
          else
            match K.multiply s.c a1 f i n with
            | none => none
            | some c1 => whileLoopChecked K f vfrom efrom i n c0 E L EF fuel ⟨s.r, a1, c1⟩ l1
    else some (s, l)

/-- The function `pagerankMonolithicSeqLoop` with checked divisions: its own division
`(1 - p) / N` and those of the kernels.  The result is `none` when a division by zero is
performed. -/
def pagerankMonolithicSeqLoopChecked (K : CheckedKernels T) (a r c f : List T)
    (vfrom efrom : List Nat) (i n N : Nat) (p E : T) (L EF : Int) : Option (Buffers T × Int) :=
  match checkedDiv (1 - p) (N : T) with
  | none => none
  | some c0 => whileLoopChecked K f vfrom efrom i n c0 E L EF L.toNat ⟨a, r, c⟩ 0

/-- The scaling of spec section 6 in its quotient form `c[v] = a[v] / outDegree(v)`, with
checked division by the out-degrees `deg`; it ignores the factor vector.  Only for
contrast with `multiply`: it fails at a window vertex of out-degree zero. -/
def quotientMultiply (deg : List Nat) (c a _f : List T) (i n : Nat) : Option (List T) :=
  (List.range' i n).foldl
    (fun acc v =>
      match acc, checkedDiv (a.getD v 0) ((deg.getD v 0 : Nat) : T) with
      | some l, some q => some (l.set v q)
      | _, _ => none)
    (some c)

end Loop

section SpecKernels

variable {T : Type} [LinearOrderedField T]

/-- The in-neighbours of `v` in the CSR pair `vfrom`/`efrom`: the entries of `efrom` at the
offsets `vfrom[v] ≤ e < vfrom[v+1]`. -/
def inNeighbours (vfrom efrom : List Nat) (v : Nat) : List Nat :=
  (List.range' (vfrom.getD v 0) (vfrom.getD (v + 1) 0 - vfrom.getD v 0)).map
    (fun e => efrom.getD e 0)

/-- The sum of `c[u]` over the in-neighbours `u` of `v`. -/
def inContribution (c : List T) (vfrom efrom : List Nat) (v : Nat) : T :=
  ((inNeighbours vfrom efrom v).map (fun u => c.getD u 0)).sum

/-- Modelled from the spec: the rank-accumulation kernel `pagerankCalculate` is called by the
loop but its body is not in this translation unit.  Spec 4.1 step 2 and section 6: for every
vertex `v` of the window `[i, i+n)` it writes `a[v] = c0 + Σ c[u]` over the in-neighbours
`u` of `v` in the CSR `vfrom`/`efrom`; it writes nothing else. -/
def pagerankCalculate (a c : List T) (vfrom efrom : List Nat) (i n : Nat) (c0 : T) : List T :=
  (List.range' i n).foldl (fun acc v => acc.set v (c0 + inContribution c vfrom efrom v)) a

/-- Modelled from the spec: the error kernel `pagerankError` is not in this translation
unit.  Spec 4.1 step 3 and section 6: a non-negative scalar comparing `a` and `r` over the
window with the norm selected by `EF`; the spec fixes neither the norms nor the selector
values.  This instance is the L1 norm `Σ |a[v] - r[v]|` over the window, for every `EF`. -/
def l1Error (a r : List T) (i n : Nat) (_EF : Int) : T :=
  ((List.range' i n).map (fun v => |a.getD v 0 - r.getD v 0|)).sum

/-- Modelled from the spec: the contribution-scaling kernel `multiply` is not in this
translation unit.  Section 6 has it write, for every `v` of the window, the contribution
`c[v] = a[v]/outDegree(v)`, with a defined (zero) value at out-degree zero.  The kernel is
handed no degrees, only the per-vertex factor vector `f` of the loop, so it is the
element-wise product `c[v] = a[v] * f[v]`: the spec's quotient when `f[v]` is the reciprocal
out-degree, and zero when `f[v] = 0`. -/
def multiply (c a f : List T) (i n : Nat) : List T :=
  (List.range' i n).foldl (fun acc v => acc.set v (a.getD v 0 * f.getD v 0)) c

/-- The kernel bundle made of the three kernels above. -/
def specKernels : Kernels T :=
  ⟨pagerankCalculate, l1Error, multiply⟩

/-- The source `u` of every edge `u→v` of the transpose CSR over `N` vertices, edge by
edge (grouped by the target `v`). -/
def edgeSources (vfrom efrom : List Nat) (N : Nat) : List Nat :=
  ((List.range N).map (inNeighbours vfrom efrom)).flatten

/-- The out-degree of `u` in the original graph, read off the transpose CSR over `N`
vertices: the number of edges whose source is `u`. -/
def outDegree (vfrom efrom : List Nat) (N u : Nat) : Nat :=
  (edgeSources vfrom efrom N).count u

end SpecKernels

section FloatModel

/-- The power `2 ^ e` for an integer exponent. -/
def twoPow (e : Int) : ℚ :=
  if 0 ≤ e then ((2 ^ e.toNat : Nat) : ℚ) else 1 / ((2 ^ (-e).toNat : Nat) : ℚ)

/-- Halving `n` until it is below `2`, at most `fuel` times: the number of halvings. -/
def log2Fuel : Nat → Nat → Nat
  | 0, _ => 0
  | fuel + 1, n => if 2 ≤ n then log2Fuel fuel (n / 2) + 1 else 0

/-- The largest `e` with `2 ^ e ≤ x`, for a positive rational `x`: the difference of the
binary logarithms of numerator and denominator, or one less. -/
def floorLog2 (x : ℚ) : Int :=
  let e0 : Int := (log2Fuel x.num.natAbs x.num.natAbs : Int) - (log2Fuel x.den x.den : Int)
  if twoPow e0 ≤ x then e0 else e0 - 1

/-- The integer nearest to a non-negative rational, ties going to the even one. -/
def roundHalfEven (q : ℚ) : Int :=
  let fl : Int := q.num / (q.den : Int)
  let frac : ℚ := q - (fl : ℚ)
  if frac < 1/2 then fl else if 1/2 < frac then fl + 1 else if fl % 2 = 0 then fl else fl + 1

/-- The binary floating-point number with `prec` significand bits nearest to `x` (ties to
even): the value `T(x)` of an exact result `x` when `T` is `float` (`prec = 24`) or
`double` (`prec = 53`).  The exponent range is not bounded (no overflow, no subnormals). -/
def roundFloat (prec : Nat) (x : ℚ) : ℚ :=
  if x = 0 then 0 else
    let scale := twoPow (floorLog2 |x| - ((prec : Int) - 1))
    let m := roundHalfEven (|x| / scale)
    if 0 < x then (m : ℚ) * scale else -((m : ℚ) * scale)

/-- The sum of `c[u]` over the in-neighbours of `v`, accumulated from `0` in floating
point. -/
def floatInContribution (prec : Nat) (c : List ℚ) (vfrom efrom : List Nat) (v : Nat) : ℚ :=
  (inNeighbours vfrom efrom v).foldl (fun acc u => roundFloat prec (acc + c.getD u 0)) 0

/-- Modelled from the spec: the rank-accumulation kernel `pagerankCalculate` (not in this
translation unit) as in `pagerankCalculate` above, evaluated in floating point: every
addition is rounded. -/
def floatPagerankCalculate (prec : Nat) (a c : List ℚ) (vfrom efrom : List Nat) (i n : Nat)
    (c0 : ℚ) : List ℚ :=
  (List.range' i n).foldl
    (fun acc v => acc.set v (roundFloat prec (c0 + floatInContribution prec c vfrom efrom v))) a

/-- Modelled from the spec: the error kernel (not in this translation unit) as the L1 norm
of `l1Error` above, evaluated in floating point: every subtraction and addition is
rounded. -/
def floatL1Error (prec : Nat) (a r : List ℚ) (i n : Nat) (_EF : Int) : ℚ :=
  (List.range' i n).foldl
    (fun acc v => roundFloat prec (acc + |roundFloat prec (a.getD v 0 - r.getD v 0)|)) 0

/-- Modelled from the spec: the scaling kernel `multiply` (not in this translation unit) as
in `multiply` above, evaluated in floating point: every product is rounded. -/
def floatMultiply (prec : Nat) (c a f : List ℚ) (i n : Nat) : List ℚ :=
  (List.range' i n).foldl
    (fun acc v => acc.set v (roundFloat prec (a.getD v 0 * f.getD v 0))) c

/-- The three kernels in floating point with `prec` significand bits. -/
def floatKernels (prec : Nat) : Kernels ℚ :=
  ⟨floatPagerankCalculate prec, floatL1Error prec, floatMultiply prec⟩

/-- The `float` nearest to `0.85`. -/
def damping32 : ℚ := 7130317 / 8388608

/-- The `double` nearest to `0.85`. -/
def damping64 : ℚ := 7656119366529843 / 9007199254740992

/-- Ranks on the 4-cycle, in `float`: `0.25` everywhere but one unit in the last place more
at vertex `0`. -/
def stallRanks32 : List ℚ := [1/4 + 1/2^25, 1/4, 1/4, 1/4]

/-- The same ranks in `double`. -/
def stallRanks64 : List ℚ := [1/4 + 1/2^54, 1/4, 1/4, 1/4]

/-- The damped factor `p / outDegree` on the 4-cycle, in `float`. -/
def stallFactor32 : List ℚ := [damping32, damping32, damping32, damping32]

/-- The damped factor `p / outDegree` on the 4-cycle, in `double`. -/
def stallFactor64 : List ℚ := [damping64, damping64, damping64, damping64]

/-- The matching contributions `r[u] * f[u]`, computed in `float`. -/
def stallContrib32 : List ℚ := floatMultiply 24 [0, 0, 0, 0] stallRanks32 stallFactor32 0 4

/-- The matching contributions `r[u] * f[u]`, computed in `double`. -/
def stallContrib64 : List ℚ := floatMultiply 53 [0, 0, 0, 0] stallRanks64 stallFactor64 0 4

end FloatModel

section Orchestration

/-- The type of the loop function handed to the harness, `pagerankMonolithicSeqLoop<T>`:
`(a, r, c, f, vfrom, efrom, i, n, N, p, E, L, EF)` to the mutated buffers and the count. -/
abbrev LoopFn (T : Type) : Type :=
  List T → List T → List T → List T → List Nat → List Nat → Nat → Nat → Nat → T → T →
    Int → Int → Buffers T × Int

/-- The result `{ranks, iterations, time}` of a computation; the elapsed time is not
modelled. -/
structure PagerankResult (T : Type) where
  ranks : List T
  iterations : Int
deriving DecidableEq, Repr

/-- The collaborators called by the orchestrations, none of which is in this translation
unit: graphs `G`, transposes `H`, vertex orders `J` and options `O` are abstract. -/
structure Collaborators (G H J O T : Type) where
  /-- `xt.order()`. -/
  order : H → Nat
  /-- `vertices(xt)`. -/
  vertices : H → J
  /-- `transposeWithDegree(x)`. -/
  transposeWithDegree : G → H
  /-- `dynamicVertices(x, xt, y, yt)`: the vertex order and the number of affected vertices. -/
  dynamicVertices : G → H → G → H → J × Nat
  /-- `pagerankSeq(xt, ks, i, ns, fl, q, o)`. -/
  pagerankSeq : H → J → Nat → Nat → LoopFn T → Option (List T) → O → PagerankResult T
  /-- The ranks a result starts from when no seed `q` is given. -/
  seedlessRanks : G → List T

/-- Modelled from the spec: the factory `PagerankResult::initial(y, q)` is not in this
translation unit.  Spec section 3 and 4.3: the result for the zero-change case, built
directly from the seed `q` (from the graph alone when `q` is absent) with zero iterations
run. -/
def PagerankResult.initial {G T : Type} (seedlessRanks : G → List T) (y : G)
    (q : Option (List T)) : PagerankResult T :=
  ⟨q.getD (seedlessRanks y), 0⟩

variable {G H J O T : Type} [LinearOrderedField T]

/-- The overload `pagerankMonolithicSeq(x, xt, q, o)`. -/
def pagerankMonolithicSeq (col : Collaborators G H J O T) (K : Kernels T)
    (_x : G) (xt : H) (q : Option (List T)) (o : O) : PagerankResult T :=
  let N := col.order xt
  let ks := col.vertices xt
  col.pagerankSeq xt ks 0 N (pagerankMonolithicSeqLoop K) q o

/-- The overload `pagerankMonolithicSeq(x, q, o)`, which builds the transpose itself. -/
def pagerankMonolithicSeqFromGraph (col : Collaborators G H J O T) (K : Kernels T)
    (x : G) (q : Option (List T)) (o : O) : PagerankResult T :=
  let xt := col.transposeWithDegree x
  pagerankMonolithicSeq col K x xt q o

/-- The overload `pagerankMonolithicSeqDynamic(x, xt, y, yt, q, o)`. -/
def pagerankMonolithicSeqDynamic (col : Collaborators G H J O T) (K : Kernels T)
    (x : G) (xt : H) (y : G) (yt : H) (q : Option (List T)) (o : O) : PagerankResult T :=
  let (ks, n) := col.dynamicVertices x xt y yt
  if n = 0 then PagerankResult.initial col.seedlessRanks y q
  else col.pagerankSeq yt ks 0 n (pagerankMonolithicSeqLoop K) q o

/-- The overload `pagerankMonolithicSeqDynamic(x, y, q, o)`, which builds both transposes. -/
def pagerankMonolithicSeqDynamicFromGraphs (col : Collaborators G H J O T) (K : Kernels T)
    (x y : G) (q : Option (List T)) (o : O) : PagerankResult T :=
  let xt := col.transposeWithDegree x
  let yt := col.transposeWithDegree y
  pagerankMonolithicSeqDynamic col K x xt y yt q o

end Orchestration

section SampleCollaborators

/-- Sample collaborators over edgeless graphs, a graph (and its transpose) being its number
of vertices and the options being `(p, E, L)`: every vertex of `y` counts as affected
unless `x = y`, and the harness runs the given loop function on the seed (zero ranks when
there is none) over the empty CSR. -/
def sampleCollaborators : Collaborators Nat Nat (List Nat) (ℚ × ℚ × Int) ℚ where
  order := fun xt => xt
  vertices := fun xt => List.range xt
  transposeWithDegree := fun x => x
  dynamicVertices := fun x _ y _ => if x = y then ([], 0) else (List.range y, y)
  pagerankSeq := fun xt _ i ns fl q o =>
    let r := q.getD (List.replicate xt 0)
    let res := fl r r (List.replicate xt 0) (List.replicate xt 0) (List.replicate (xt + 1) 0) []
      i ns xt o.1 o.2.1 o.2.2 1
    ⟨res.1.a, res.2⟩
  seedlessRanks := fun y => List.replicate y 0

end SampleCollaborators

section Cycle4

/-- Offsets of the transpose CSR of the 4-cycle `0→1→2→3→0`. -/
def cycleVfrom : List Nat := [0, 1, 2, 3, 4]

/-- In-neighbours of the 4-cycle: `3→0`, `0→1`, `1→2`, `2→3`. -/
def cycleEfrom : List Nat := [3, 0, 1, 2]

/-- Uniform ranks `0.25` on four vertices. -/
def cycleRanks : List ℚ := [1/4, 1/4, 1/4, 1/4]

/-- The factor `p/outDegree = 0.85` on four vertices. -/
def cycleFactor : List ℚ := [17/20, 17/20, 17/20, 17/20]

/-- The contributions `0.25 * 0.85` precomputed from the uniform ranks. -/
def cycleContrib : List ℚ := multiply [0, 0, 0, 0] cycleRanks cycleFactor 0 4

end Cycle4

section Tri

/-- Offsets of the transpose CSR of the graph `0→1, 0→2, 1→2, 2→0` on three vertices. -/
def triVfrom : List Nat := [0, 1, 2, 4]

/-- In-neighbours of that graph: `2→0`; `0→1`; `0→2`, `1→2`. -/
def triEfrom : List Nat := [2, 0, 0, 1]

/-- Uniform ranks `1/3` on three vertices. -/
def triRanks : List ℚ := [1/3, 1/3, 1/3]

/-- The factor `p/outDegree` for `p = 1/2` and out-degrees `2, 1, 1`. -/
def triFactor : List ℚ := [1/4, 1/2, 1/2]

/-- The contributions `r[u] * f[u]` of the uniform ranks. -/
def triContrib : List ℚ := [1/12, 1/6, 1/6]

end Tri

section Dangling

/-- Offsets of the transpose CSR of the graph `0→1, 0→2, 1→0` on three vertices, in which
vertex `2` has no out-edge. -/
def dangleVfrom : List Nat := [0, 1, 2, 3]

/-- In-neighbours of that graph: `1→0`; `0→1`; `0→2`. -/
def dangleEfrom : List Nat := [1, 0, 0]

/-- The factor `p/outDegree` for `p = 1/2` and out-degrees `2, 1, 0` (zero at the vertex
without out-edge). -/
def dangleFactor : List ℚ := [1/4, 1/2, 0]

/-- The contributions `r[u] * f[u]` of the uniform ranks `1/3`. -/
def dangleContrib : List ℚ := [1/12, 1/6, 0]

end Dangling

section Spur

/-- Offsets of the transpose CSR of the graph `0→1, 1→0, 2→0` on three vertices. -/
def spurVfrom : List Nat := [0, 2, 3, 3]

/-- In-neighbours of that graph: `1→0`, `2→0`; `0→1`; none for `2`. -/
def spurEfrom : List Nat := [1, 2, 0]

/-- The factor `p/outDegree` for `p = 0.85`, every out-degree being 1. -/
def spurFactor : List ℚ := [17/20, 17/20, 17/20]

/-- Offsets of the transpose CSR of the previous snapshot `0→1, 1→0` (no edge `2→0`). -/
def spurOldVfrom : List Nat := [0, 1, 2, 2]

/-- In-neighbours of the previous snapshot: `1→0`; `0→1`. -/
def spurOldEfrom : List Nat := [1, 0]

/-- The factor of the previous snapshot, in which vertex `2` has no out-edge. -/
def spurOldFactor : List ℚ := [17/20, 17/20, 0]

/-- Uniform ranks `1/3`, the start of a static run without seed. -/
def spurUniform : List ℚ := [1/3, 1/3, 1/3]

/-- The static run on the previous snapshot (`p = 0.85`, `E = 0.1`, `L = 500`, L1 error). -/
def spurOldStatic : Buffers ℚ × Int :=
  pagerankMonolithicSeqLoop specKernels spurUniform spurUniform
    (multiply [0, 0, 0] spurUniform spurOldFactor 0 3) spurOldFactor spurOldVfrom spurOldEfrom
    0 3 3 (17/20) (1/10) 500 1

/-- The static run on the new graph: full window `[0, 3)` from the uniform ranks. -/
def spurStatic : Buffers ℚ × Int :=
  pagerankMonolithicSeqLoop specKernels spurUniform spurUniform
    (multiply [0, 0, 0] spurUniform spurFactor 0 3) spurFactor spurVfrom spurEfrom
    0 3 3 (17/20) (1/10) 500 1

/-- The dynamic run on the new graph: window `[0, 2)` (the vertices reachable from the new
edge `2→0`), seeded with the ranks of the previous snapshot. -/
def spurDynamic : Buffers ℚ × Int :=
  pagerankMonolithicSeqLoop specKernels spurOldStatic.1.a spurOldStatic.1.a
    (multiply [0, 0, 0] spurOldStatic.1.a spurFactor 0 3) spurFactor spurVfrom spurEfrom
    0 2 3 (17/20) (1/10) 500 1

end Spur

section WindowWrite

variable {α : Type}

/-- Writing `g v` at every index `v` of the window `[i, i+n)`: the entry at `v` afterwards. -/
theorem windowWrite_getElem? (g : Nat → α) :
    ∀ (n i : Nat) (a : List α) (v : Nat),
      ((List.range' i n).foldl (fun acc v => acc.set v (g v)) a)[v]? =
        if i ≤ v ∧ v < i + n ∧ v < a.length then some (g v) else a[v]? := by
  intro n
  induction n with
  | zero =>
    intro i a v
    have hwin : ¬ (i ≤ v ∧ v < i + 0 ∧ v < a.length) := by omega
    rw [if_neg hwin]
    rfl
  | succ n ih =>
    intro i a v
    rw [List.range'_succ, List.foldl_cons, ih, List.length_set, List.getElem?_set]
    by_cases hiv : i = v
    · subst hiv
      by_cases hlen : i < a.length
      · simp [hlen]
      · have hnone : a[i]? = none := List.getElem?_eq_none (by omega)
        simp [hlen, hnone]
    · by_cases hwin : i + 1 ≤ v ∧ v < i + 1 + n ∧ v < a.length
      · have hwin2 : i ≤ v ∧ v < i + (n + 1) ∧ v < a.length := by omega
        simp [hwin, hwin2]
      · have hwin2 : ¬ (i ≤ v ∧ v < i + (n + 1) ∧ v < a.length) := by omega
        simp [hwin, hwin2, hiv]

/-- Writing over a window keeps the length of the vector. -/
theorem windowWrite_length (g : Nat → α) :
    ∀ (n i : Nat) (a : List α),
      ((List.range' i n).foldl (fun acc v => acc.set v (g v)) a).length = a.length := by
  intro n
  induction n with
  | zero => intro i a; simp
  | succ n ih => intro i a; rw [List.range'_succ, List.foldl_cons, ih, List.length_set]

/-- Two window writes of values that agree on the window give the same vector. -/
theorem windowWrite_congr (g g2 : Nat → α) (n i : Nat) (a : List α)
    (h : ∀ v, i ≤ v → v < i + n → g v = g2 v) :
    (List.range' i n).foldl (fun acc v => acc.set v (g v)) a =
      (List.range' i n).foldl (fun acc v => acc.set v (g2 v)) a := by
  apply List.ext_getElem?
  intro v
  rw [windowWrite_getElem?, windowWrite_getElem?]
  by_cases hwin : i ≤ v ∧ v < i + n ∧ v < a.length
  · rw [if_pos hwin, if_pos hwin, h v hwin.1 hwin.2.1]
  · rw [if_neg hwin, if_neg hwin]

end WindowWrite

section KernelLemmas

variable {T : Type} [LinearOrderedField T]

/-- The L1 error is a sum of absolute values, hence never negative. -/
theorem l1Error_nonneg (x y : List T) (i n : Nat) (EF : Int) : 0 ≤ l1Error x y i n EF := by
  unfold l1Error
  apply List.sum_nonneg
  intro t ht
  obtain ⟨v, -, rfl⟩ := List.mem_map.mp ht
  exact abs_nonneg _

/-- The accumulation kernel keeps the length of `a`. -/
theorem pagerankCalculate_length (a c : List T) (vfrom efrom : List Nat) (i n : Nat) (c0 : T) :
    (pagerankCalculate a c vfrom efrom i n c0).length = a.length :=
  windowWrite_length _ n i a

/-- The accumulation kernel on a window vertex: `c0` plus the in-neighbour contributions. -/
theorem pagerankCalculate_getD_window (a c : List T) (vfrom efrom : List Nat) (i n : Nat)
    (c0 : T) (v : Nat) (h1 : i ≤ v) (h2 : v < i + n) (h3 : v < a.length) :
    (pagerankCalculate a c vfrom efrom i n c0).getD v 0 =
      c0 + inContribution c vfrom efrom v := by
  have h := windowWrite_getElem? (fun v => c0 + inContribution c vfrom efrom v) n i a v
  rw [if_pos ⟨h1, h2, h3⟩] at h
  rw [List.getD_eq_getElem?_getD]
  unfold pagerankCalculate
  rw [h]
  rfl

/-- The accumulation kernel leaves every entry outside the window as it was. -/
theorem pagerankCalculate_getD_outside (a c : List T) (vfrom efrom : List Nat) (i n : Nat)
    (c0 : T) (v : Nat) (h : ¬ (i ≤ v ∧ v < i + n)) :
    (pagerankCalculate a c vfrom efrom i n c0).getD v 0 = a.getD v 0 := by
  have h' := windowWrite_getElem? (fun v => c0 + inContribution c vfrom efrom v) n i a v
  rw [if_neg (by tauto)] at h'
  rw [List.getD_eq_getElem?_getD, List.getD_eq_getElem?_getD]
  unfold pagerankCalculate
  rw [h']

/-- The scaling kernel keeps the length of `c`. -/
theorem multiply_length (c a f : List T) (i n : Nat) :
    (multiply c a f i n).length = c.length :=
  windowWrite_length _ n i c

/-- The scaling kernel on a window vertex: the product of the rank and the factor. -/
theorem multiply_getD_window (c a f : List T) (i n : Nat) (v : Nat)
    (h1 : i ≤ v) (h2 : v < i + n) (h3 : v < c.length) :
    (multiply c a f i n).getD v 0 = a.getD v 0 * f.getD v 0 := by
  have h := windowWrite_getElem? (fun v => a.getD v 0 * f.getD v 0) n i c v
  rw [if_pos ⟨h1, h2, h3⟩] at h
  rw [List.getD_eq_getElem?_getD]
  unfold multiply
  rw [h]
  rfl

/-- The scaling kernel leaves every entry outside the window as it was. -/
theorem multiply_getD_outside (c a f : List T) (i n : Nat) (v : Nat)
    (h : ¬ (i ≤ v ∧ v < i + n)) :
    (multiply c a f i n).getD v 0 = c.getD v 0 := by
  have h' := windowWrite_getElem? (fun v => a.getD v 0 * f.getD v 0) n i c v
  rw [if_neg (by tauto)] at h'
  rw [List.getD_eq_getElem?_getD, List.getD_eq_getElem?_getD]
  unfold multiply
  rw [h']

/-- The scaling kernel at any index: the product inside the window, the old entry elsewhere. -/
theorem multiply_getD (c a f : List T) (i n : Nat) (v : Nat) :
    (multiply c a f i n).getD v 0 =
      if i ≤ v ∧ v < i + n ∧ v < c.length then a.getD v 0 * f.getD v 0 else c.getD v 0 := by
  have h := windowWrite_getElem? (fun v => a.getD v 0 * f.getD v 0) n i c v
  rw [List.getD_eq_getElem?_getD]
  unfold multiply
  rw [h]
  by_cases hwin : i ≤ v ∧ v < i + n ∧ v < c.length
  · rw [if_pos hwin, if_pos hwin]; rfl
  · rw [if_neg hwin, if_neg hwin, List.getD_eq_getElem?_getD]

/-- The accumulation kernel reads `c` only at the in-neighbours of the window vertices:
two contribution vectors that agree off a vertex `u` which is an in-neighbour of no window
vertex give the same estimate. -/
theorem pagerankCalculate_congr_off (a c c2 : List T) (vfrom efrom : List Nat) (i n : Nat)
    (c0 : T) (u : Nat)
    (hu : ∀ v, i ≤ v → v < i + n → u ∉ inNeighbours vfrom efrom v)
    (hc : ∀ w, w ≠ u → c.getD w 0 = c2.getD w 0) :
    pagerankCalculate a c vfrom efrom i n c0 = pagerankCalculate a c2 vfrom efrom i n c0 := by
  unfold pagerankCalculate
  apply windowWrite_congr
  intro v h1 h2
  unfold inContribution
  congr 2
  apply List.map_congr_left
  intro w hw
  exact hc w (fun hwu => hu v h1 h2 (hwu ▸ hw))

/-- Overwriting the entry at `u` changes no other entry. -/
theorem getD_set_of_ne (l : List T) (u w : Nat) (x : T) (h : w ≠ u) :
    l.getD w 0 = (l.set u x).getD w 0 := by
  rw [List.getD_eq_getElem?_getD, List.getD_eq_getElem?_getD,
    List.getElem?_set_ne (fun hh => h hh.symm)]

/-- The L1 error of a vector against itself is zero. -/
theorem l1Error_self (x : List T) (i n : Nat) (EF : Int) : l1Error x x i n EF = 0 := by
  unfold l1Error
  apply List.sum_eq_zero
  intro t ht
  obtain ⟨v, -, rfl⟩ := List.mem_map.mp ht
  simp

/-- A sum over `List.range N` as a finite-set sum. -/
theorem listRange_sum_eq_finset_sum (g : Nat → T) (N : Nat) :
    ((List.range N).map g).sum = ∑ u ∈ Finset.range N, g u := by
  induction N with
  | zero => simp
  | succ N ih => rw [List.range_succ, List.map_append, List.sum_append, ih,
      Finset.sum_range_succ]; simp

/-- Reading every index of a vector gives the vector back. -/
theorem map_getD_range (l : List T) :
    (List.range l.length).map (fun u => l.getD u 0) = l := by
  apply List.ext_getElem
  · simp
  · intro k h1 h2
    simp [List.getElem?_eq_getElem h2]

/-- Over the full window of a vector of length `N` the accumulation kernel rewrites every
entry. -/
theorem pagerankCalculate_full_window (a c : List T) (vfrom efrom : List Nat) (N : Nat)
    (c0 : T) (ha : a.length = N) :
    pagerankCalculate a c vfrom efrom 0 N c0 =
      (List.range N).map (fun v => c0 + inContribution c vfrom efrom v) := by
  apply List.ext_getElem?
  intro v
  unfold pagerankCalculate
  rw [windowWrite_getElem?]
  by_cases hv : v < N
  · have hwin : 0 ≤ v ∧ v < 0 + N ∧ v < a.length := by omega
    rw [if_pos hwin, List.getElem?_map, List.getElem?_range hv]
    rfl
  · have hwin : ¬ (0 ≤ v ∧ v < 0 + N ∧ v < a.length) := by omega
    rw [if_neg hwin, List.getElem?_eq_none (by omega), List.getElem?_eq_none (by simp; omega)]

/-- The in-neighbour contributions summed over all vertices are the contributions summed
over all edges. -/
theorem inContribution_sum_eq_edge_sum (c : List T) (vfrom efrom : List Nat) (N : Nat) :
    ((List.range N).map (inContribution c vfrom efrom)).sum =
      ((edgeSources vfrom efrom N).map (fun u => c.getD u 0)).sum := by
  unfold edgeSources
  rw [List.map_flatten, List.sum_flatten, List.map_map, List.map_map]
  rfl

/-- The mass written by one full-window accumulation: the teleport mass `1 - p` plus the
contributions carried by the edges. -/
theorem pagerankCalculate_full_sum (a c : List T) (vfrom efrom : List Nat) (N : Nat) (p : T)
    (hN : 1 ≤ N) (ha : a.length = N) :
    (pagerankCalculate a c vfrom efrom 0 N ((1 - p) / (N : T))).sum =
      (1 - p) + ((edgeSources vfrom efrom N).map (fun u => c.getD u 0)).sum := by
  rw [pagerankCalculate_full_window a c vfrom efrom N _ ha, List.sum_map_add,
    inContribution_sum_eq_edge_sum]
  congr 1
  have hN0 : (N : T) ≠ 0 := by exact_mod_cast (by omega : N ≠ 0)
  rw [List.map_const', List.sum_replicate, List.length_range, nsmul_eq_mul]
  field_simp

/-- When every edge source is a vertex, every vertex has an out-edge and `c[u]` is the
damped per-edge share `p * r[u] / outDegree(u)`, the edges carry the mass `p * Σ r`. -/
theorem damped_edge_sum (r c : List T) (vfrom efrom : List Nat) (N : Nat) (p : T)
    (hr : r.length = N)
    (hsrc : ∀ u ∈ edgeSources vfrom efrom N, u < N)
    (hdeg : ∀ u, u < N → 1 ≤ outDegree vfrom efrom N u)
    (hc : ∀ u, u < N → c.getD u 0 = p * r.getD u 0 / ((outDegree vfrom efrom N u : Nat) : T)) :
    ((edgeSources vfrom efrom N).map (fun u => c.getD u 0)).sum = p * r.sum := by
  rw [Finset.sum_list_map_count]
  have hsub : (edgeSources vfrom efrom N).toFinset ⊆ Finset.range N := by
    intro u hu
    exact Finset.mem_range.mpr (hsrc u (List.mem_toFinset.mp hu))
  rw [Finset.sum_subset hsub (by
    intro u _ hu
    rw [List.mem_toFinset] at hu
    rw [List.count_eq_zero_of_not_mem hu, zero_smul])]
  have hterm : ∀ u ∈ Finset.range N,
      (edgeSources vfrom efrom N).count u • c.getD u 0 = p * r.getD u 0 := by
    intro u hu
    have huN : u < N := Finset.mem_range.mp hu
    have hd := hdeg u huN
    have hd0 : ((outDegree vfrom efrom N u : Nat) : T) ≠ 0 := by
      exact_mod_cast (by omega : outDegree vfrom efrom N u ≠ 0)
    rw [hc u huN, nsmul_eq_mul]
    show ((outDegree vfrom efrom N u : Nat) : T) * _ = _
    field_simp
  rw [Finset.sum_congr rfl hterm, ← Finset.mul_sum, ← listRange_sum_eq_finset_sum, ← hr,
    map_getD_range]

/-- The absolute value of a sum is at most the sum of the absolute values. -/
theorem abs_list_sum_le (l : List Nat) (g : Nat → T) :
    |(l.map g).sum| ≤ (l.map (fun x => |g x|)).sum := by
  induction l with
  | nil => simp
  | cons x l ih =>
    simp only [List.map_cons, List.sum_cons]
    exact (abs_add _ _).trans (add_le_add_left ih _)

/-- The sum of differences is the difference of the sums. -/
theorem list_sum_map_sub (l : List Nat) (g h : Nat → T) :
    (l.map (fun x => g x - h x)).sum = (l.map g).sum - (l.map h).sum := by
  induction l with
  | nil => simp
  | cons x l ih =>
    simp only [List.map_cons, List.sum_cons, ih]
    ring

/-- A sum over the in-neighbours of all vertices is a sum over all edges. -/
theorem inNeighbours_sum_eq_edge_sum (h : Nat → T) (vfrom efrom : List Nat) (N : Nat) :
    ((List.range N).map (fun v => ((inNeighbours vfrom efrom v).map h).sum)).sum =
      ((edgeSources vfrom efrom N).map h).sum := by
  unfold edgeSources
  rw [List.map_flatten, List.sum_flatten, List.map_map, List.map_map]
  rfl

/-- A sum over all edges, grouped by the source of the edge. -/
theorem edge_sum_eq_degree_sum (h : Nat → T) (vfrom efrom : List Nat) (N : Nat)
    (hsrc : ∀ u ∈ edgeSources vfrom efrom N, u < N) :
    ((edgeSources vfrom efrom N).map h).sum =
      ∑ u ∈ Finset.range N, ((outDegree vfrom efrom N u : Nat) : T) * h u := by
  rw [Finset.sum_list_map_count]
  have hsub : (edgeSources vfrom efrom N).toFinset ⊆ Finset.range N := by
    intro u hu
    exact Finset.mem_range.mpr (hsrc u (List.mem_toFinset.mp hu))
  rw [Finset.sum_subset hsub (by
    intro u _ hu
    rw [List.mem_toFinset] at hu
    rw [List.count_eq_zero_of_not_mem hu, zero_smul])]
  apply Finset.sum_congr rfl
  intro u _
  rw [nsmul_eq_mul]
  rfl

/-- The damped factor `p / outDegree(u)` weighs the out-edges of `u` by at most `p`. -/
theorem damped_factor_bound (f : List T) (vfrom efrom : List Nat) (N : Nat) (p : T)
    (hp : 0 ≤ p) (u : Nat)
    (hf : f.getD u 0 = p / ((outDegree vfrom efrom N u : Nat) : T)) :
    ((outDegree vfrom efrom N u : Nat) : T) * |f.getD u 0| ≤ p := by
  rw [hf]
  rcases Nat.eq_zero_or_pos (outDegree vfrom efrom N u) with h0 | hpos
  · rw [h0]; simpa using hp
  · have hd : (0 : T) < ((outDegree vfrom efrom N u : Nat) : T) := by exact_mod_cast hpos
    rw [abs_of_nonneg (div_nonneg hp hd.le), mul_div_cancel₀ _ hd.ne']

/-- One accumulation contracts L1 distances by the factor `p`: when the contributions are
the ranks times a factor that weighs the out-edges of every vertex by at most `p`, the
estimates computed from two rank vectors are at most `p` times as far apart as these. -/
theorem accumulation_contracts (c c2 x y f : List T) (vfrom efrom : List Nat) (N : Nat)
    (p c0 : T)
    (hsrc : ∀ u ∈ edgeSources vfrom efrom N, u < N)
    (hf : ∀ u, u < N → ((outDegree vfrom efrom N u : Nat) : T) * |f.getD u 0| ≤ p)
    (hc : ∀ u, u < N → c.getD u 0 = x.getD u 0 * f.getD u 0)
    (hc2 : ∀ u, u < N → c2.getD u 0 = y.getD u 0 * f.getD u 0) :
    ((List.range N).map (fun v =>
        |(c0 + inContribution c vfrom efrom v) - (c0 + inContribution c2 vfrom efrom v)|)).sum ≤
      p * ((List.range N).map (fun u => |x.getD u 0 - y.getD u 0|)).sum := by
  have hstep : ((List.range N).map (fun v =>
        |(c0 + inContribution c vfrom efrom v) - (c0 + inContribution c2 vfrom efrom v)|)).sum ≤
      ((List.range N).map (fun v => ((inNeighbours vfrom efrom v).map
        (fun u => |c.getD u 0 - c2.getD u 0|)).sum)).sum := by
    apply List.sum_le_sum
    intro v _
    have heq : (c0 + inContribution c vfrom efrom v) - (c0 + inContribution c2 vfrom efrom v) =
        ((inNeighbours vfrom efrom v).map (fun u => c.getD u 0 - c2.getD u 0)).sum := by
      unfold inContribution
      rw [list_sum_map_sub]
      ring
    rw [heq]
    exact abs_list_sum_le _ _
  refine hstep.trans ?_
  rw [inNeighbours_sum_eq_edge_sum, edge_sum_eq_degree_sum _ vfrom efrom N hsrc,
    listRange_sum_eq_finset_sum, Finset.mul_sum]
  apply Finset.sum_le_sum
  intro u hu
  have huN : u < N := Finset.mem_range.mp hu
  rw [hc u huN, hc2 u huN, ← sub_mul, abs_mul, ← mul_assoc,
    mul_comm ((outDegree vfrom efrom N u : Nat) : T), mul_assoc, mul_comm p]
  exact mul_le_mul_of_nonneg_left (hf u huN) (abs_nonneg _)

/-- The arithmetic of the comparison of a windowed run with a full run: when the windowed
estimate `d` and the full estimate `s` are images, under a map contracting by `p`, of
baselines `d2` and `s2`, and `d2` agrees with `s` outside the window `[0, n)`, then
`(1 - p)` times the window distance of `d` and `s` is at most `p` times the sum of the two
last errors. -/
theorem scaled_tolerance_bound (d d2 s s2 : Nat → T) (n N : Nat) (p : T) (hn : n ≤ N)
    (hp : 0 ≤ p)
    (hsame : ∀ u, n ≤ u → u < N → d2 u = s u)
    (hcontr : ∑ v ∈ Finset.range n, |d v - s v| ≤ p * ∑ u ∈ Finset.range N, |d2 u - s2 u|) :
    (1 - p) * ∑ v ∈ Finset.range n, |d v - s v| ≤
      p * (∑ v ∈ Finset.range n, |d v - d2 v| + ∑ u ∈ Finset.range N, |s u - s2 u|) := by
  have hsplit : ∀ g : Nat → T, ∑ u ∈ Finset.range N, g u =
      ∑ u ∈ Finset.range n, g u + ∑ u ∈ Finset.Ico n N, g u :=
    fun g => (Finset.sum_range_add_sum_Ico g hn).symm
  have h1 : ∑ u ∈ Finset.range n, |d2 u - s2 u| ≤
      ∑ u ∈ Finset.range n, (|d u - d2 u| + |d u - s u| + |s u - s2 u|) := by
    apply Finset.sum_le_sum
    intro u _
    have e : d2 u - s2 u = (d2 u - d u) + (d u - s u) + (s u - s2 u) := by ring
    rw [e, abs_sub_comm (d u) (d2 u)]
    exact (abs_add _ _).trans (add_le_add_right (abs_add _ _) _)
  have h2 : ∑ u ∈ Finset.Ico n N, |d2 u - s2 u| = ∑ u ∈ Finset.Ico n N, |s u - s2 u| := by
    apply Finset.sum_congr rfl
    intro u hu
    rw [hsame u (Finset.mem_Ico.mp hu).1 (Finset.mem_Ico.mp hu).2]
  have h3 : ∑ u ∈ Finset.range N, |d2 u - s2 u| ≤
      ∑ v ∈ Finset.range n, |d v - d2 v| + ∑ v ∈ Finset.range n, |d v - s v| +
        ∑ u ∈ Finset.range N, |s u - s2 u| := by
    rw [hsplit (fun u => |d2 u - s2 u|), hsplit (fun u => |s u - s2 u|), h2]
    rw [Finset.sum_add_distrib, Finset.sum_add_distrib] at h1
    linarith
  have h4 := hcontr.trans (mul_le_mul_of_nonneg_left h3 hp)
  linarith

/-- The L1 error over the full window `[0, N)` as a sum over `List.range N`. -/
theorem l1Error_full (x y : List T) (N : Nat) (EF : Int) :
    l1Error x y 0 N EF = ((List.range N).map (fun v => |x.getD v 0 - y.getD v 0|)).sum := by
  unfold l1Error
  rw [List.range_eq_range']

/-- Comparison of the buffers `eD` left by a run over the window `[0, n)` with the buffers
`eS` left by a run over `[0, N)`, both with last L1 error below `E`, when the baseline of
the windowed run carries the full run's ranks outside the window. -/
theorem compare_exit_buffers (eS eD : Buffers T) (f : List T) (vfrom efrom : List Nat)
    (n N : Nat) (p c0 E : T) (EF : Int) (hn : n ≤ N) (hp : 0 ≤ p)
    (hsrc : ∀ u ∈ edgeSources vfrom efrom N, u < N)
    (hf : ∀ u, u < N → ((outDegree vfrom efrom N u : Nat) : T) * |f.getD u 0| ≤ p)
    (hSa : ∀ v, v < N → eS.a.getD v 0 = c0 + inContribution eS.c vfrom efrom v)
    (hSc : ∀ u, u < N → eS.c.getD u 0 = eS.r.getD u 0 * f.getD u 0)
    (hSe : l1Error eS.a eS.r 0 N EF < E)
    (hDa : ∀ v, v < n → eD.a.getD v 0 = c0 + inContribution eD.c vfrom efrom v)
    (hDc : ∀ u, u < N → eD.c.getD u 0 = eD.r.getD u 0 * f.getD u 0)
    (hDr : ∀ v, n ≤ v → v < N → eD.r.getD v 0 = eS.a.getD v 0)
    (hDe : l1Error eD.a eD.r 0 n EF < E) :
    (1 - p) * ((List.range n).map (fun v => |eD.a.getD v 0 - eS.a.getD v 0|)).sum ≤
      2 * p * E := by
  have hcontr : ∑ v ∈ Finset.range n, |eD.a.getD v 0 - eS.a.getD v 0| ≤
      p * ∑ u ∈ Finset.range N, |eD.r.getD u 0 - eS.r.getD u 0| := by
    have h1 : ∑ v ∈ Finset.range n, |eD.a.getD v 0 - eS.a.getD v 0| =
        ∑ v ∈ Finset.range n, |(c0 + inContribution eD.c vfrom efrom v) -
          (c0 + inContribution eS.c vfrom efrom v)| := by
      apply Finset.sum_congr rfl
      intro v hv
      have hvn : v < n := Finset.mem_range.mp hv
      rw [hDa v hvn, hSa v (by omega)]
    have h2 : ∑ v ∈ Finset.range n, |(c0 + inContribution eD.c vfrom efrom v) -
          (c0 + inContribution eS.c vfrom efrom v)| ≤
        ∑ v ∈ Finset.range N, |(c0 + inContribution eD.c vfrom efrom v) -
          (c0 + inContribution eS.c vfrom efrom v)| :=
      Finset.sum_le_sum_of_subset_of_nonneg (Finset.range_mono hn)
        (fun _ _ _ => abs_nonneg _)
    have h3 := accumulation_contracts eD.c eS.c eD.r eS.r f vfrom efrom N p c0 hsrc hf hDc hSc
    rw [listRange_sum_eq_finset_sum, listRange_sum_eq_finset_sum] at h3
    rw [h1]
    exact h2.trans h3
  have hbound := scaled_tolerance_bound (fun v => eD.a.getD v 0) (fun v => eD.r.getD v 0)
    (fun v => eS.a.getD v 0) (fun v => eS.r.getD v 0) n N p hn hp hDr hcontr
  beta_reduce at hbound
  rw [l1Error_full, listRange_sum_eq_finset_sum] at hSe hDe
  rw [listRange_sum_eq_finset_sum]
  have hsum : p * (∑ v ∈ Finset.range n, |eD.a.getD v 0 - eD.r.getD v 0| +
      ∑ u ∈ Finset.range N, |eS.a.getD u 0 - eS.r.getD u 0|) ≤ p * (E + E) :=
    mul_le_mul_of_nonneg_left (by linarith) hp
  calc (1 - p) * ∑ v ∈ Finset.range n, |eD.a.getD v 0 - eS.a.getD v 0|
      ≤ p * (∑ v ∈ Finset.range n, |eD.a.getD v 0 - eD.r.getD v 0| +
          ∑ u ∈ Finset.range N, |eS.a.getD u 0 - eS.r.getD u 0|) := hbound
    _ ≤ p * (E + E) := hsum
    _ = 2 * p * E := by ring

end KernelLemmas

section RoundLemmas

variable {T : Type}
variable (K : Kernels T) (f : List T) (vfrom efrom : List Nat) (i n : Nat) (c0 : T) (EF : Int)

/-- The rounds compose: `j + k` rounds are `k` rounds after `j` rounds. -/
theorem roundStart_add (s0 : Buffers T) (j k : Nat) :
    roundStart K f vfrom efrom i n c0 s0 (j + k) =
      roundStart K f vfrom efrom i n c0 (roundStart K f vfrom efrom i n c0 s0 j) k := by
  induction k with
  | zero => rfl
  | succ k ih =>
    show roundStart K f vfrom efrom i n c0 s0 ((j + k) + 1) = _
    simp only [roundStart, ih]

/-- The error of iteration `j + k + 1` is the error of iteration `k + 1` of the run that
starts from the buffers reached after `j` rounds. -/
theorem errorAt_shift (s0 : Buffers T) (j k : Nat) :
    errorAt K f vfrom efrom i n c0 EF s0 (j + k + 1) =
      errorAt K f vfrom efrom i n c0 EF (roundStart K f vfrom efrom i n c0 s0 j) (k + 1) := by
  simp only [errorAt, estimate, Nat.add_sub_cancel, roundStart_add]

end RoundLemmas

section LoopLemmas

variable {T : Type} [LinearOrderedField T]
variable (K : Kernels T) (f : List T) (vfrom efrom : List Nat) (i n : Nat)
variable (c0 E : T) (L EF : Int)

/-- Once the fuel covers `L - l`, more fuel does not change the result. -/
theorem whileLoop_fuel_stable (fuel : Nat) :
    ∀ (s : Buffers T) (l : Int), L - l ≤ fuel →
      whileLoop K f vfrom efrom i n c0 E L EF (fuel + 1) s l =
        whileLoop K f vfrom efrom i n c0 E L EF fuel s l := by
  induction fuel with
  | zero =>
    intro s l h
    have hl : ¬ l < L := by simp at h; omega
    simp [whileLoop, hl]
  | succ k ih =>
    intro s l h
    rw [whileLoop]
    conv_rhs => rw [whileLoop]
    by_cases hl : l < L
    · simp only [hl, if_true]
      split
      · rfl
      · apply ih
        push_cast at h
        omega
    · simp [hl]

/-- Any fuel above `L - l` gives the result of fuel `L - l`. -/
theorem whileLoop_fuel_ge (fuel k : Nat) (s : Buffers T) (l : Int) (h : L - l ≤ fuel) :
    whileLoop K f vfrom efrom i n c0 E L EF (fuel + k) s l =
      whileLoop K f vfrom efrom i n c0 E L EF fuel s l := by
  induction k with
  | zero => rfl
  | succ k ih =>
    rw [← Nat.add_assoc, whileLoop_fuel_stable K f vfrom efrom i n c0 E L EF (fuel + k) s l
      (by push_cast; omega), ih]

/-- Master invariant of the loop: entered at the top of round `j + 1` with no earlier
error below `E`, it stops in some iteration `m` with `j < m ≤ L`, returns `m`, exposes the
buffers of that iteration, and `m` is the first iteration whose error is below `E`, or `L`. -/
theorem whileLoop_spec (s0 : Buffers T) (fuel : Nat) :
    ∀ j : Nat, (j : Int) < L → L ≤ (fuel : Int) + j →
      (∀ k, 1 ≤ k → k ≤ j → ¬ errorAt K f vfrom efrom i n c0 EF s0 k < E) →
      ∃ m : Nat, j < m ∧ (m : Int) ≤ L ∧
        whileLoop K f vfrom efrom i n c0 E L EF fuel
          (roundStart K f vfrom efrom i n c0 s0 j) j =
          (exitBuffers K f vfrom efrom i n c0 s0 m, (m : Int)) ∧
        (∀ k, 1 ≤ k → k < m → ¬ errorAt K f vfrom efrom i n c0 EF s0 k < E) ∧
        (errorAt K f vfrom efrom i n c0 EF s0 m < E ∨ (m : Int) = L) := by
  induction fuel with
  | zero => intro j h1 h2 _; omega
  | succ fuel ih =>
    intro j hj hfuel hprev
    rw [whileLoop]
    simp only [hj, if_true]
    by_cases hstop : errorAt K f vfrom efrom i n c0 EF s0 (j + 1) < E ∨ (j : Int) + 1 ≥ L
    · refine ⟨j + 1, Nat.lt_succ_self j, by push_cast; omega, ?_, ?_, ?_⟩
      · have hstop2 : K.pagerankError
            (K.pagerankCalculate (roundStart K f vfrom efrom i n c0 s0 j).a
              (roundStart K f vfrom efrom i n c0 s0 j).c vfrom efrom i n c0)
            (roundStart K f vfrom efrom i n c0 s0 j).r i n EF < E ∨ (j : Int) + 1 ≥ L := by
          simpa [errorAt, estimate] using hstop
        rw [if_pos hstop2]
        simp [exitBuffers, estimate]
      · intro k hk1 hk2
        exact hprev k hk1 (by omega)
      · rcases hstop with h | h
        · exact Or.inl h
        · right; push_cast; omega
    · have hstop2 : ¬ (K.pagerankError
            (K.pagerankCalculate (roundStart K f vfrom efrom i n c0 s0 j).a
              (roundStart K f vfrom efrom i n c0 s0 j).c vfrom efrom i n c0)
            (roundStart K f vfrom efrom i n c0 s0 j).r i n EF < E ∨ (j : Int) + 1 ≥ L) := by
        simpa [errorAt, estimate] using hstop
      rw [if_neg hstop2]
      push_neg at hstop
      obtain ⟨m, hm1, hm2, hrun, hleast, hlast⟩ := ih (j + 1) (by push_cast; omega)
        (by push_cast; omega) (by
          intro k hk1 hk2
          rcases Nat.lt_or_ge k (j + 1) with h | h
          · exact hprev k hk1 (by omega)
          · have : k = j + 1 := by omega
            subst this
            exact not_lt.mpr hstop.1)
      refine ⟨m, by omega, hm2, ?_, hleast, hlast⟩
      rw [← hrun]
      simp [roundStart]

/-- The loop really passes through `roundStart`: when it returns `m`, then for every
`j < m` the run from the initial buffers is the run resumed at the top of round `j + 1`
with the buffers `roundStart j` and the counter `j`. -/
theorem whileLoop_reaches (s0 : Buffers T) (m : Nat) (hm : (m : Int) ≤ L)
    (hleast : ∀ k, 1 ≤ k → k < m → ¬ errorAt K f vfrom efrom i n c0 EF s0 k < E) :
    ∀ j : Nat, j < m →
      whileLoop K f vfrom efrom i n c0 E L EF L.toNat s0 0 =
        whileLoop K f vfrom efrom i n c0 E L EF (L.toNat - j)
          (roundStart K f vfrom efrom i n c0 s0 j) j := by
  intro j
  induction j with
  | zero => intro _; rfl
  | succ j ih =>
    intro hj
    rw [ih (by omega)]
    obtain ⟨fuel, hfuel⟩ : ∃ fuel, L.toNat - j = fuel + 1 := ⟨L.toNat - j - 1, by omega⟩
    have hfuel2 : L.toNat - (j + 1) = fuel := by omega
    rw [hfuel, hfuel2, whileLoop]
    have hjL : (j : Int) < L := by omega
    have hcont : ¬ (K.pagerankError
        (K.pagerankCalculate (roundStart K f vfrom efrom i n c0 s0 j).a
          (roundStart K f vfrom efrom i n c0 s0 j).c vfrom efrom i n c0)
        (roundStart K f vfrom efrom i n c0 s0 j).r i n EF < E ∨ (j : Int) + 1 ≥ L) := by
      have h1 := hleast (j + 1) (by omega) hj
      simp only [errorAt, estimate, Nat.add_sub_cancel] at h1
      intro hor
      rcases hor with h | h
      · exact h1 h
      · omega
    simp only [hjL, if_true, if_neg hcont]
    simp [roundStart]

/-- Erasing the ghost log of the traced loop gives the loop. -/
theorem whileLoopTraced_erase (fuel : Nat) :
    ∀ (s : Buffers T) (l : Int) (t : List KernelCall),
      (whileLoopTraced K f vfrom efrom i n c0 E L EF fuel s l t).1 =
        whileLoop K f vfrom efrom i n c0 E L EF fuel s l := by
  induction fuel with
  | zero => intro s l t; rfl
  | succ fuel ih =>
    intro s l t
    rw [whileLoopTraced, whileLoop]
    by_cases hl : l < L
    · simp only [hl, if_true]
      split
      · rfl
      · exact ih _ _ _
    · simp [hl]

/-- The log of a run entered with counter `l < L`: some number `k` of full rounds followed
by the last round, the returned count being `l + k + 1`. -/
theorem whileLoopTraced_log (fuel : Nat) :
    ∀ (s : Buffers T) (l : Int) (t : List KernelCall), l < L → L - l ≤ fuel →
      ∃ k : Nat,
        (whileLoopTraced K f vfrom efrom i n c0 E L EF fuel s l t).1.2 = l + k + 1 ∧
        (whileLoopTraced K f vfrom efrom i n c0 E L EF fuel s l t).2 =
          t ++ (List.replicate k fullRound).flatten ++ lastRound := by
  induction fuel with
  | zero => intro s l t h1 h2; simp at h2; omega
  | succ fuel ih =>
    intro s l t h1 h2
    rw [whileLoopTraced]
    simp only [h1, if_true]
    split
    · exact ⟨0, by simp, by simp⟩
    · rename_i hcont
      have hl1 : l + 1 < L := by
        by_contra hge
        exact hcont (Or.inr (by omega))
      obtain ⟨k, hk1, hk2⟩ := ih ⟨s.r, K.pagerankCalculate s.a s.c vfrom efrom i n c0,
        K.multiply s.c (K.pagerankCalculate s.a s.c vfrom efrom i n c0) f i n⟩ (l + 1)
        (t ++ fullRound) hl1 (by push_cast at h2; omega)
      refine ⟨k + 1, ?_, ?_⟩
      · rw [hk1]; push_cast; ring
      · rw [hk2, List.replicate_succ, List.flatten_cons]
        simp [List.append_assoc]

/-- Two runs of the loop from buffers with the same `a` and `r`, with contribution vectors
of the same length and factor vectors that each agree off a vertex `u` which is an
in-neighbour of no window vertex: same count, same `a`, same `r`, and `c` the same off
`u`. -/
theorem whileLoop_congr_off (hcalc : K.pagerankCalculate = pagerankCalculate)
    (hmul : K.multiply = multiply) (f2 : List T) (u : Nat)
    (hu : ∀ v, i ≤ v → v < i + n → u ∉ inNeighbours vfrom efrom v)
    (hf : ∀ w, w ≠ u → f.getD w 0 = f2.getD w 0) (fuel : Nat) :
    ∀ (s s2 : Buffers T) (l : Int), s.a = s2.a → s.r = s2.r → s.c.length = s2.c.length →
      (∀ w, w ≠ u → s.c.getD w 0 = s2.c.getD w 0) →
      (whileLoop K f vfrom efrom i n c0 E L EF fuel s l).2 =
        (whileLoop K f2 vfrom efrom i n c0 E L EF fuel s2 l).2 ∧
      (whileLoop K f vfrom efrom i n c0 E L EF fuel s l).1.a =
        (whileLoop K f2 vfrom efrom i n c0 E L EF fuel s2 l).1.a ∧
      (whileLoop K f vfrom efrom i n c0 E L EF fuel s l).1.r =
        (whileLoop K f2 vfrom efrom i n c0 E L EF fuel s2 l).1.r ∧
      (∀ w, w ≠ u →
        (whileLoop K f vfrom efrom i n c0 E L EF fuel s l).1.c.getD w 0 =
          (whileLoop K f2 vfrom efrom i n c0 E L EF fuel s2 l).1.c.getD w 0) := by
  induction fuel with
  | zero =>
    intro s s2 l ha hr _ hc
    exact ⟨rfl, ha, hr, hc⟩
  | succ fuel ih =>
    intro s s2 l ha hr hlen hc
    have hcalc2 : K.pagerankCalculate s.a s.c vfrom efrom i n c0 =
        K.pagerankCalculate s2.a s2.c vfrom efrom i n c0 := by
      rw [hcalc, ← ha]
      exact pagerankCalculate_congr_off s.a s.c s2.c vfrom efrom i n c0 u hu hc
    rw [whileLoop, whileLoop]
    by_cases hl : l < L
    · simp only [hl, if_true]
      rw [← hcalc2, ← hr]
      by_cases hstop : K.pagerankError (K.pagerankCalculate s.a s.c vfrom efrom i n c0) s.r i n EF
          < E ∨ l + 1 ≥ L
      · rw [if_pos hstop, if_pos hstop]
        exact ⟨rfl, rfl, rfl, hc⟩
      · rw [if_neg hstop, if_neg hstop]
        apply ih
        · rfl
        · rfl
        · simp only [hmul, multiply_length]; exact hlen
        · intro w hw
          simp only [hmul]
          rw [multiply_getD, multiply_getD, ← hlen, hf w hw, hc w hw]
    · rw [if_neg hl, if_neg hl]
      exact ⟨rfl, ha, hr, hc⟩

/-- A run whose buffers come back after `P` more rounds to what they were after `k0` rounds,
and whose errors up to iteration `k0 + P` are all at least `E`, never has an error below
`E`. -/
theorem stalled_forever (s0 : Buffers T) (k0 P : Nat) (hP : 1 ≤ P)
    (hper : roundStart K f vfrom efrom i n c0 s0 (k0 + P) =
      roundStart K f vfrom efrom i n c0 s0 k0)
    (hfin : ∀ k, 1 ≤ k → k ≤ k0 + P → ¬ errorAt K f vfrom efrom i n c0 EF s0 k < E) :
    ∀ k, 1 ≤ k → ¬ errorAt K f vfrom efrom i n c0 EF s0 k < E := by
  intro k
  induction k using Nat.strong_induction_on with
  | _ k ih =>
    intro hk
    by_cases hsmall : k ≤ k0 + P
    · exact hfin k hk hsmall
    · obtain ⟨d, rfl⟩ : ∃ d, k = k0 + P + d + 1 := ⟨k - (k0 + P) - 1, by omega⟩
      rw [errorAt_shift, hper, ← errorAt_shift]
      exact ih (k0 + d + 1) (by omega) (by omega)

/-- With kernels that perform no division the checked loop never fails, and it returns
what the loop returns. -/
theorem whileLoopChecked_of_unchecked (fuel : Nat) :
    ∀ (s : Buffers T) (l : Int),
      whileLoopChecked K.checked f vfrom efrom i n c0 E L EF fuel s l =
        some (whileLoop K f vfrom efrom i n c0 E L EF fuel s l) := by
  induction fuel with
  | zero => intro s l; rfl
  | succ fuel ih =>
    intro s l
    rw [whileLoopChecked, whileLoop]
    by_cases hl : l < L
    · simp only [hl, if_true, Kernels.checked]
      split
      · rfl
      · exact ih _ _
    · simp [hl]

/-- The number of occurrences of a call in `k` full rounds. -/
theorem count_fullRounds (k : Nat) (x : KernelCall) :
    ((List.replicate k fullRound).flatten).count x = k * fullRound.count x := by
  induction k with
  | zero => simp
  | succ k ih =>
    rw [List.replicate_succ, List.flatten_cons, List.count_append, ih]
    ring

/-- Frame of the rounds: outside the window the two rank buffers only exchange their
initial contents from round to round, and `c` keeps its initial content. -/
theorem roundStart_outside (hcalc : K.pagerankCalculate = pagerankCalculate)
    (hmul : K.multiply = multiply) (s0 : Buffers T) (v : Nat) (hv : ¬ (i ≤ v ∧ v < i + n)) :
    ∀ k,
      (roundStart K f vfrom efrom i n c0 s0 k).a.getD v 0 =
        (if k % 2 = 0 then s0.a.getD v 0 else s0.r.getD v 0) ∧
      (roundStart K f vfrom efrom i n c0 s0 k).r.getD v 0 =
        (if k % 2 = 0 then s0.r.getD v 0 else s0.a.getD v 0) ∧
      (roundStart K f vfrom efrom i n c0 s0 k).c.getD v 0 = s0.c.getD v 0 := by
  intro k
  induction k with
  | zero => simp [roundStart]
  | succ k ih =>
    obtain ⟨iha, ihr, ihc⟩ := ih
    simp only [roundStart, hcalc, hmul]
    rw [pagerankCalculate_getD_outside _ _ vfrom efrom i n c0 v hv,
      multiply_getD_outside _ _ f i n v hv, iha, ihr, ihc]
    rcases Nat.mod_two_eq_zero_or_one k with h | h
    · have h2 : (k + 1) % 2 = 1 := by omega
      simp [h, h2]
    · have h2 : (k + 1) % 2 = 0 := by omega
      simp [h, h2]

/-- With the modelled accumulation kernel, an index valid in the initial `a` and `r` stays
valid in both rank buffers in every round. -/
theorem roundStart_index_valid (hK : K.pagerankCalculate = pagerankCalculate)
    (s0 : Buffers T) (v : Nat) (ha : v < s0.a.length) (hr : v < s0.r.length) :
    ∀ k, v < (roundStart K f vfrom efrom i n c0 s0 k).a.length ∧
      v < (roundStart K f vfrom efrom i n c0 s0 k).r.length := by
  intro k
  induction k with
  | zero => exact ⟨ha, hr⟩
  | succ k ih =>
    refine ⟨ih.2, ?_⟩
    simp only [roundStart, hK, pagerankCalculate_length]
    exact ih.1

/-- With the modelled accumulation kernel, rank buffers of length `N` keep that length in
every round. -/
theorem roundStart_lengths (hK : K.pagerankCalculate = pagerankCalculate)
    (s0 : Buffers T) (N : Nat) (ha : s0.a.length = N) (hr : s0.r.length = N) :
    ∀ k, (roundStart K f vfrom efrom i n c0 s0 k).a.length = N ∧
      (roundStart K f vfrom efrom i n c0 s0 k).r.length = N := by
  intro k
  induction k with
  | zero => exact ⟨ha, hr⟩
  | succ k ih =>
    refine ⟨ih.2, ?_⟩
    simp only [roundStart, hK, pagerankCalculate_length]
    exact ih.1

/-- With the modelled scaling kernel the contribution buffer keeps its length. -/
theorem roundStart_c_length (hK : K.multiply = multiply) (s0 : Buffers T) :
    ∀ k, (roundStart K f vfrom efrom i n c0 s0 k).c.length = s0.c.length := by
  intro k
  induction k with
  | zero => rfl
  | succ k ih => simp only [roundStart, hK, multiply_length]; exact ih

/-- With the kernels of the spec, rank and contribution buffers of length `N`, matching
initial contributions `c[u] = r[u] * f[u]` and initial `a`, `r` that agree outside the
window: in every round `c[u] = r[u] * f[u]` for every vertex, and `a`, `r` agree outside the
window. -/
theorem roundStart_matching (hcalc : K.pagerankCalculate = pagerankCalculate)
    (hmul : K.multiply = multiply) (s0 : Buffers T) (N : Nat)
    (hcl : s0.c.length = N)
    (hc : ∀ u, u < N → s0.c.getD u 0 = s0.r.getD u 0 * f.getD u 0)
    (hout : ∀ u, u < N → ¬ (i ≤ u ∧ u < i + n) → s0.a.getD u 0 = s0.r.getD u 0) :
    ∀ k,
      (∀ u, u < N → (roundStart K f vfrom efrom i n c0 s0 k).c.getD u 0 =
        (roundStart K f vfrom efrom i n c0 s0 k).r.getD u 0 * f.getD u 0) ∧
      (∀ u, u < N → ¬ (i ≤ u ∧ u < i + n) →
        (roundStart K f vfrom efrom i n c0 s0 k).a.getD u 0 =
          (roundStart K f vfrom efrom i n c0 s0 k).r.getD u 0) := by
  intro k
  induction k with
  | zero => exact ⟨hc, hout⟩
  | succ k ih =>
    obtain ⟨ihc, ihout⟩ := ih
    have hlen := roundStart_c_length K f vfrom efrom i n c0 hmul s0 k
    constructor
    · intro u hu
      simp only [roundStart, hcalc, hmul]
      rw [multiply_getD]
      by_cases hwin : i ≤ u ∧ u < i + n
      · rw [if_pos ⟨hwin.1, hwin.2, by rw [hlen, hcl]; exact hu⟩]
      · rw [if_neg (by tauto), pagerankCalculate_getD_outside _ _ vfrom efrom i n c0 u hwin,
          ihc u hu, ihout u hu hwin]
    · intro u hu hwin
      simp only [roundStart, hcalc]
      rw [pagerankCalculate_getD_outside _ _ vfrom efrom i n c0 u hwin, ihout u hu hwin]

/-- The buffers at exit, with the kernels of the spec, buffers of length `N`, matching
initial contributions and initial `a`, `r` that agree outside the window: inside the window
`a[v] = c0 + Σ c[u]` over the in-neighbours, `c[u] = r[u] * f[u]` at every vertex, and `a`
agrees with `r` outside the window. -/
theorem exitBuffers_form (hcalc : K.pagerankCalculate = pagerankCalculate)
    (hmul : K.multiply = multiply) (s0 : Buffers T) (N : Nat)
    (ha : s0.a.length = N) (hr : s0.r.length = N) (hcl : s0.c.length = N)
    (hc : ∀ u, u < N → s0.c.getD u 0 = s0.r.getD u 0 * f.getD u 0)
    (hout : ∀ u, u < N → ¬ (i ≤ u ∧ u < i + n) → s0.a.getD u 0 = s0.r.getD u 0) (m : Nat) :
    (∀ v, i ≤ v → v < i + n → v < N →
      (exitBuffers K f vfrom efrom i n c0 s0 m).a.getD v 0 =
        c0 + inContribution (exitBuffers K f vfrom efrom i n c0 s0 m).c vfrom efrom v) ∧
    (∀ u, u < N → (exitBuffers K f vfrom efrom i n c0 s0 m).c.getD u 0 =
      (exitBuffers K f vfrom efrom i n c0 s0 m).r.getD u 0 * f.getD u 0) ∧
    (∀ v, v < N → ¬ (i ≤ v ∧ v < i + n) →
      (exitBuffers K f vfrom efrom i n c0 s0 m).a.getD v 0 =
        (exitBuffers K f vfrom efrom i n c0 s0 m).r.getD v 0) := by
  have hmatch := roundStart_matching K f vfrom efrom i n c0 hcalc hmul s0 N hcl hc hout (m - 1)
  have hlen := roundStart_lengths K f vfrom efrom i n c0 hcalc s0 N ha hr (m - 1)
  refine ⟨?_, hmatch.1, ?_⟩
  · intro v h1 h2 h3
    simp only [exitBuffers, estimate, hcalc]
    exact pagerankCalculate_getD_window _ _ vfrom efrom i n c0 v h1 h2 (by rw [hlen.1]; exact h3)
  · intro v hv hwin
    simp only [exitBuffers, estimate, hcalc]
    rw [pagerankCalculate_getD_outside _ _ vfrom efrom i n c0 v hwin]
    exact hmatch.2 v hv hwin

/-- Full window, kernels of the spec, damped matching contributions: the L1 distance
between consecutive estimates shrinks by the factor `p` from one iteration to the next. -/
theorem l1_distance_contracts (hcalc : K.pagerankCalculate = pagerankCalculate)
    (hmul : K.multiply = multiply) (s0 : Buffers T) (N : Nat) (p : T) (EF : Int)
    (ha : s0.a.length = N) (hr : s0.r.length = N) (hcl : s0.c.length = N)
    (hsrc : ∀ u ∈ edgeSources vfrom efrom N, u < N)
    (hf : ∀ u, u < N → ((outDegree vfrom efrom N u : Nat) : T) * |f.getD u 0| ≤ p)
    (hc : ∀ u, u < N → s0.c.getD u 0 = s0.r.getD u 0 * f.getD u 0) (j : Nat) :
    l1Error (estimate K f vfrom efrom 0 N c0 s0 (j + 2))
        (roundStart K f vfrom efrom 0 N c0 s0 (j + 1)).r 0 N EF ≤
      p * l1Error (estimate K f vfrom efrom 0 N c0 s0 (j + 1))
        (roundStart K f vfrom efrom 0 N c0 s0 j).r 0 N EF := by
  have hmatch := roundStart_matching K f vfrom efrom 0 N c0 hcalc hmul s0 N hcl hc
    (by intro u hu hwin; exact absurd ⟨Nat.zero_le u, by omega⟩ hwin)
  have hlen := roundStart_lengths K f vfrom efrom 0 N c0 hcalc s0 N ha hr
  have hr1 : (roundStart K f vfrom efrom 0 N c0 s0 (j + 1)).r =
      estimate K f vfrom efrom 0 N c0 s0 (j + 1) := by
    simp [roundStart, estimate]
  rw [l1Error_full, l1Error_full, ← hr1]
  have hlhs : (List.range N).map (fun v =>
      |(estimate K f vfrom efrom 0 N c0 s0 (j + 2)).getD v 0 -
        (roundStart K f vfrom efrom 0 N c0 s0 (j + 1)).r.getD v 0|) =
      (List.range N).map (fun v =>
        |(c0 + inContribution (roundStart K f vfrom efrom 0 N c0 s0 (j + 1)).c vfrom efrom v) -
          (c0 + inContribution (roundStart K f vfrom efrom 0 N c0 s0 j).c vfrom efrom v)|) := by
    apply List.map_congr_left
    intro v hv
    have hvN : v < N := List.mem_range.mp hv
    have h1 : (estimate K f vfrom efrom 0 N c0 s0 (j + 2)).getD v 0 =
        c0 + inContribution (roundStart K f vfrom efrom 0 N c0 s0 (j + 1)).c vfrom efrom v := by
      simp only [estimate, hcalc, show j + 2 - 1 = j + 1 from rfl]
      exact pagerankCalculate_getD_window _ _ vfrom efrom 0 N c0 v (Nat.zero_le v) (by omega)
        (by rw [(hlen (j + 1)).1]; exact hvN)
    have h2 : (roundStart K f vfrom efrom 0 N c0 s0 (j + 1)).r.getD v 0 =
        c0 + inContribution (roundStart K f vfrom efrom 0 N c0 s0 j).c vfrom efrom v := by
      simp only [roundStart, hcalc]
      exact pagerankCalculate_getD_window _ _ vfrom efrom 0 N c0 v (Nat.zero_le v) (by omega)
        (by rw [(hlen j).1]; exact hvN)
    rw [h1, h2]
  rw [hlhs]
  exact accumulation_contracts _ _ _ _ f vfrom efrom N p c0 hsrc hf (hmatch (j + 1)).1
    (hmatch j).1

/-- Full window, kernels of the spec, damped matching contributions, `0 ≤ p`: the L1
distance between the estimates of iterations `j + 1` and `j` is at most `p ^ j` times the
first one. -/
theorem l1_distance_geometric (hcalc : K.pagerankCalculate = pagerankCalculate)
    (hmul : K.multiply = multiply) (s0 : Buffers T) (N : Nat) (p : T) (EF : Int)
    (hp : 0 ≤ p)
    (ha : s0.a.length = N) (hr : s0.r.length = N) (hcl : s0.c.length = N)
    (hsrc : ∀ u ∈ edgeSources vfrom efrom N, u < N)
    (hf : ∀ u, u < N → ((outDegree vfrom efrom N u : Nat) : T) * |f.getD u 0| ≤ p)
    (hc : ∀ u, u < N → s0.c.getD u 0 = s0.r.getD u 0 * f.getD u 0) (j : Nat) :
    l1Error (estimate K f vfrom efrom 0 N c0 s0 (j + 1))
        (roundStart K f vfrom efrom 0 N c0 s0 j).r 0 N EF ≤
      p ^ j * l1Error (estimate K f vfrom efrom 0 N c0 s0 1) s0.r 0 N EF := by
  induction j with
  | zero => simp [roundStart]
  | succ j ih =>
    refine (l1_distance_contracts K f vfrom efrom c0 hcalc hmul s0 N p EF ha hr hcl hsrc hf hc
      j).trans ?_
    rw [pow_succ, mul_comm (p ^ j) p, mul_assoc]
    exact mul_le_mul_of_nonneg_left ih hp

end LoopLemmas


section LoopClaims

variable {T : Type} [LinearOrderedField T]
variable (K : Kernels T) (a r c f : List T) (vfrom efrom : List Nat) (i n N : Nat)
variable (p E : T) (L EF : Int)

/-- With `L ≥ 1` the loop stops in some iteration `m` of `[1, L]`: it returns `m`, leaves
the buffers of that iteration, no earlier error is below `E`, and either the error of
iteration `m` is below `E` or `m = L`. -/
theorem loop_exit (hL : 1 ≤ L) :
    ∃ m : Nat, 1 ≤ m ∧ (m : Int) ≤ L ∧
      pagerankMonolithicSeqLoop K a r c f vfrom efrom i n N p E L EF =
        (exitBuffers K f vfrom efrom i n ((1 - p) / (N : T)) ⟨a, r, c⟩ m, (m : Int)) ∧
      (∀ k, 1 ≤ k → k < m →
        ¬ errorAt K f vfrom efrom i n ((1 - p) / (N : T)) EF ⟨a, r, c⟩ k < E) ∧
      (errorAt K f vfrom efrom i n ((1 - p) / (N : T)) EF ⟨a, r, c⟩ m < E ∨ (m : Int) = L) := by
  obtain ⟨m, h1, h2, h3, h4, h5⟩ :=
    whileLoop_spec K f vfrom efrom i n ((1 - p) / (N : T)) E L EF ⟨a, r, c⟩ L.toNat 0
      (by push_cast; omega) (by rw [Int.toNat_of_nonneg (by omega)]; simp)
      (by intro k hk1 hk2; omega)
  exact ⟨m, by omega, h2, by simpa [pagerankMonolithicSeqLoop, roundStart] using h3, h4, h5⟩

/-- With `L ≤ 0` the loop body is never entered. -/
theorem loop_not_entered (hL : L ≤ 0) :
    pagerankMonolithicSeqLoop K a r c f vfrom efrom i n N p E L EF = (⟨a, r, c⟩, 0) := by
  have h0 : L.toNat = 0 := by omega
  simp [pagerankMonolithicSeqLoop, h0, whileLoop]

/-- When no iteration has an error below `E`, the loop returns the cap. -/
theorem loop_returns_cap_of_stalled (hL : 1 ≤ L)
    (hall : ∀ k, 1 ≤ k →
      ¬ errorAt K f vfrom efrom i n ((1 - p) / (N : T)) EF ⟨a, r, c⟩ k < E) :
    (pagerankMonolithicSeqLoop K a r c f vfrom efrom i n N p E L EF).2 = L := by
  obtain ⟨m, h1, -, h3, -, h5⟩ := loop_exit K a r c f vfrom efrom i n N p E L EF hL
  rw [h3]
  exact h5.resolve_left (hall m h1)

/-- C1. For `L ≥ 1` the returned count `l` lies in `[1, L]`, no iteration before `l` has an
error below `E`, and either the error computed in iteration `l` is below `E` (so `l` is the
least such iteration) or no iteration of `[1, L]` has an error below `E` and `l = L`. -/
theorem loop_count_least_below_tolerance_or_cap (hL : 1 ≤ L) :
    ∃ m : Nat, (pagerankMonolithicSeqLoop K a r c f vfrom efrom i n N p E L EF).2 = (m : Int) ∧
      1 ≤ m ∧ (m : Int) ≤ L ∧
      (∀ k : Nat, 1 ≤ k → k < m →
        ¬ errorAt K f vfrom efrom i n ((1 - p) / (N : T)) EF ⟨a, r, c⟩ k < E) ∧
      (errorAt K f vfrom efrom i n ((1 - p) / (N : T)) EF ⟨a, r, c⟩ m < E ∨
        ((m : Int) = L ∧ ∀ k : Nat, 1 ≤ k → (k : Int) ≤ L →
          ¬ errorAt K f vfrom efrom i n ((1 - p) / (N : T)) EF ⟨a, r, c⟩ k < E)) := by
  obtain ⟨m, h1, h2, h3, h4, h5⟩ := loop_exit K a r c f vfrom efrom i n N p E L EF hL
  refine ⟨m, by rw [h3], h1, h2, h4, ?_⟩
  by_cases hm : errorAt K f vfrom efrom i n ((1 - p) / (N : T)) EF ⟨a, r, c⟩ m < E
  · exact Or.inl hm
  · have hmL : (m : Int) = L := h5.resolve_left hm
    refine Or.inr ⟨hmL, ?_⟩
    intro k hk1 hk2
    rcases Nat.lt_or_ge k m with h | h
    · exact h4 k hk1 h
    · have : k = m := by omega
      rw [this]; exact hm

/-- C2. For `L ≥ 1` the loop terminates (any bound of at least `L` evaluations of the loop
condition yields the same result) and the returned count satisfies `1 ≤ l ≤ L`. -/
theorem loop_terminates_count_in_range (hL : 1 ≤ L) :
    (∀ fuel : Nat, L.toNat ≤ fuel →
      whileLoop K f vfrom efrom i n ((1 - p) / (N : T)) E L EF fuel ⟨a, r, c⟩ 0 =
        pagerankMonolithicSeqLoop K a r c f vfrom efrom i n N p E L EF) ∧
    1 ≤ (pagerankMonolithicSeqLoop K a r c f vfrom efrom i n N p E L EF).2 ∧
    (pagerankMonolithicSeqLoop K a r c f vfrom efrom i n N p E L EF).2 ≤ L := by
  obtain ⟨m, h1, h2, h3, -, -⟩ := loop_exit K a r c f vfrom efrom i n N p E L EF hL
  refine ⟨?_, by rw [h3]; show (1 : Int) ≤ (m : Int); exact_mod_cast h1, by rw [h3]; exact h2⟩
  intro fuel hfuel
  obtain ⟨k, rfl⟩ := Nat.exists_eq_add_of_le hfuel
  exact whileLoop_fuel_ge K f vfrom efrom i n ((1 - p) / (N : T)) E L EF L.toNat k ⟨a, r, c⟩ 0
    (by rw [Int.toNat_of_nonneg (by omega)]; simp)

/-- C3. Exhaustion: when the error kernel never returns a negative value, the call with
`L = k ≥ 1` and `E = 0` returns `k`, and the buffers it leaves are those of the `k`-th
rank accumulation (`a` is the `k`-th estimate; `r` and `c` have gone through `k - 1`
`multiply`/`swap` rounds). -/
theorem loop_exhausts_at_zero_tolerance (k : Nat) (hk : 1 ≤ k)
    (hK : ∀ (x y : List T) (i n : Nat) (EF : Int), 0 ≤ K.pagerankError x y i n EF) :
    pagerankMonolithicSeqLoop K a r c f vfrom efrom i n N p 0 (k : Int) EF =
      (exitBuffers K f vfrom efrom i n ((1 - p) / (N : T)) ⟨a, r, c⟩ k, (k : Int)) := by
  obtain ⟨m, -, -, h3, -, h5⟩ :=
    loop_exit K a r c f vfrom efrom i n N p 0 (k : Int) EF (by exact_mod_cast hk)
  have hmk : m = k := by
    rcases h5 with h | h
    · exact absurd h (not_lt.mpr (hK _ _ _ _ _))
    · exact_mod_cast h
  rw [h3, hmk]

/-- C4. When the loop returns `l ≥ 1`, the caller's `a` is the estimate written by the
`l`-th rank accumulation and the caller's `r` is the estimate of iteration `l - 1` (the
initial `r` when `l = 1`), as whole vectors and hence on every index of the window. -/
theorem loop_exit_latest_estimate_in_a (m : Nat) (hm : 1 ≤ m)
    (hret : (pagerankMonolithicSeqLoop K a r c f vfrom efrom i n N p E L EF).2 = (m : Int)) :
    (pagerankMonolithicSeqLoop K a r c f vfrom efrom i n N p E L EF).1.a =
      estimate K f vfrom efrom i n ((1 - p) / (N : T)) ⟨a, r, c⟩ m ∧
    (pagerankMonolithicSeqLoop K a r c f vfrom efrom i n N p E L EF).1.r =
      if m = 1 then r else estimate K f vfrom efrom i n ((1 - p) / (N : T)) ⟨a, r, c⟩ (m - 1) := by
  have hL : 1 ≤ L := by
    by_contra hcon
    rw [loop_not_entered K a r c f vfrom efrom i n N p E L EF (by omega)] at hret
    simp at hret
    omega
  obtain ⟨m', -, -, h3, -, -⟩ := loop_exit K a r c f vfrom efrom i n N p E L EF hL
  have hmm : m' = m := by
    rw [h3] at hret
    have hret2 : (m' : Int) = (m : Int) := hret
    exact_mod_cast hret2
  subst hmm
  rw [h3]
  refine ⟨rfl, ?_⟩
  by_cases h1 : m' = 1
  · subst h1; simp [exitBuffers, roundStart]
  · obtain ⟨j, rfl⟩ : ∃ j, m' = j + 2 := ⟨m' - 2, by omega⟩
    simp [exitBuffers, roundStart, estimate]

/-- Witness for C1 on the 4-cycle (`p = 0.85`, `E = 1e-6`, `L = 100`). -/
theorem loop_count_least_below_tolerance_or_cap_witness :
    ∃ m : Nat, (pagerankMonolithicSeqLoop specKernels cycleRanks cycleRanks cycleContrib
        cycleFactor cycleVfrom cycleEfrom 0 4 4 (17/20) (1/1000000) 100 1).2 = (m : Int) ∧
      1 ≤ m ∧ (m : Int) ≤ 100 ∧
      (∀ k : Nat, 1 ≤ k → k < m →
        ¬ errorAt specKernels cycleFactor cycleVfrom cycleEfrom 0 4 ((1 - 17/20) / ((4 : Nat) : ℚ)) 1
          ⟨cycleRanks, cycleRanks, cycleContrib⟩ k < 1/1000000) ∧
      (errorAt specKernels cycleFactor cycleVfrom cycleEfrom 0 4 ((1 - 17/20) / ((4 : Nat) : ℚ)) 1
          ⟨cycleRanks, cycleRanks, cycleContrib⟩ m < 1/1000000 ∨
        ((m : Int) = 100 ∧ ∀ k : Nat, 1 ≤ k → (k : Int) ≤ 100 →
          ¬ errorAt specKernels cycleFactor cycleVfrom cycleEfrom 0 4
            ((1 - 17/20) / ((4 : Nat) : ℚ)) 1 ⟨cycleRanks, cycleRanks, cycleContrib⟩ k
              < 1/1000000)) :=
  loop_count_least_below_tolerance_or_cap specKernels cycleRanks cycleRanks cycleContrib
    cycleFactor cycleVfrom cycleEfrom 0 4 4 (17/20) (1/1000000) 100 1 (by decide)

/-- Witness for C2 on the three-vertex graph (`p = 1/2`, `E = 1/1000`, `L = 50`). -/
theorem loop_terminates_count_in_range_witness :
    (∀ fuel : Nat, (50 : Int).toNat ≤ fuel →
      whileLoop specKernels triFactor triVfrom triEfrom 0 3 ((1 - 1/2) / ((3 : Nat) : ℚ))
          (1/1000) 50 1 fuel ⟨triRanks, triRanks, triContrib⟩ 0 =
        pagerankMonolithicSeqLoop specKernels triRanks triRanks triContrib triFactor
          triVfrom triEfrom 0 3 3 (1/2) (1/1000) 50 1) ∧
    1 ≤ (pagerankMonolithicSeqLoop specKernels triRanks triRanks triContrib triFactor
          triVfrom triEfrom 0 3 3 (1/2) (1/1000) 50 1).2 ∧
    (pagerankMonolithicSeqLoop specKernels triRanks triRanks triContrib triFactor
          triVfrom triEfrom 0 3 3 (1/2) (1/1000) 50 1).2 ≤ 50 :=
  loop_terminates_count_in_range specKernels triRanks triRanks triContrib triFactor
    triVfrom triEfrom 0 3 3 (1/2) (1/1000) 50 1 (by decide)

/-- Witness for C3 on the three-vertex graph with `k = 3`. -/
theorem loop_exhausts_at_zero_tolerance_witness :
    pagerankMonolithicSeqLoop specKernels triRanks triRanks triContrib triFactor
        triVfrom triEfrom 0 3 3 (1/2) 0 ((3 : Nat) : Int) 1 =
      (exitBuffers specKernels triFactor triVfrom triEfrom 0 3 ((1 - 1/2) / ((3 : Nat) : ℚ))
        ⟨triRanks, triRanks, triContrib⟩ 3, ((3 : Nat) : Int)) :=
  loop_exhausts_at_zero_tolerance specKernels triRanks triRanks triContrib triFactor
    triVfrom triEfrom 0 3 3 (1/2) 1 3 (by decide) (fun x y i n EF => l1Error_nonneg x y i n EF)

/-- Witness for C4 on the three-vertex graph: the run with `E = 0`, `L = 3` returns `3`
after two swaps. -/
theorem loop_exit_latest_estimate_in_a_witness :
    (pagerankMonolithicSeqLoop specKernels triRanks triRanks triContrib triFactor
        triVfrom triEfrom 0 3 3 (1/2) 0 3 1).1.a =
      estimate specKernels triFactor triVfrom triEfrom 0 3 ((1 - 1/2) / ((3 : Nat) : ℚ))
        ⟨triRanks, triRanks, triContrib⟩ 3 ∧
    (pagerankMonolithicSeqLoop specKernels triRanks triRanks triContrib triFactor
        triVfrom triEfrom 0 3 3 (1/2) 0 3 1).1.r =
      if 3 = 1 then triRanks
      else estimate specKernels triFactor triVfrom triEfrom 0 3 ((1 - 1/2) / ((3 : Nat) : ℚ))
        ⟨triRanks, triRanks, triContrib⟩ (3 - 1) :=
  loop_exit_latest_estimate_in_a specKernels triRanks triRanks triContrib triFactor
    triVfrom triEfrom 0 3 3 (1/2) 0 3 1 3 (by decide) (by decide!)

/-- C7, counterexample.  On the three-vertex graph with `E = 1/1000` and `L = 7` the error
first falls below `E` in iteration 7, so the returned count equals `L` although the last
computed error is below `E`: the count neither equals `L` only when no error fell below
`E`, nor is it below `L` whenever the last error is below `E`. -/
theorem count_eq_cap_does_not_mean_exhausted :
    ¬ (((pagerankMonolithicSeqLoop specKernels triRanks triRanks triContrib triFactor
          triVfrom triEfrom 0 3 3 (1/2) (1/1000) 7 1).2 = 7 ↔
        ∀ k : Nat, 1 ≤ k → (k : Int) ≤ 7 →
          ¬ errorAt specKernels triFactor triVfrom triEfrom 0 3
            ((1 - 1/2) / ((3 : Nat) : ℚ)) 1 ⟨triRanks, triRanks, triContrib⟩ k < 1/1000) ∧
      ((pagerankMonolithicSeqLoop specKernels triRanks triRanks triContrib triFactor
          triVfrom triEfrom 0 3 3 (1/2) (1/1000) 7 1).2 < 7 ↔
        errorAt specKernels triFactor triVfrom triEfrom 0 3
            ((1 - 1/2) / ((3 : Nat) : ℚ)) 1 ⟨triRanks, triRanks, triContrib⟩
            (pagerankMonolithicSeqLoop specKernels triRanks triRanks triContrib triFactor
              triVfrom triEfrom 0 3 3 (1/2) (1/1000) 7 1).2.toNat < 1/1000)) := by
  intro h
  have hret : (pagerankMonolithicSeqLoop specKernels triRanks triRanks triContrib triFactor
      triVfrom triEfrom 0 3 3 (1/2) (1/1000) 7 1).2 = 7 := by decide!
  have herr : errorAt specKernels triFactor triVfrom triEfrom 0 3
      ((1 - 1/2) / ((3 : Nat) : ℚ)) 1 ⟨triRanks, triRanks, triContrib⟩ 7 < 1/1000 := by
    decide!
  exact h.1.mp hret 7 (by decide) (by decide) herr

/-- C7, amended.  For `L ≥ 1`: a returned count below `L` means that the last computed
error is below `E`; when no iteration of `[1, L]` has an error below `E` the count is `L`;
and the count equals `L` exactly when no iteration before the `L`-th has an error below
`E` (whatever the error of iteration `L` itself is). -/
theorem count_below_cap_means_converged (hL : 1 ≤ L) :
    ∃ m : Nat, (pagerankMonolithicSeqLoop K a r c f vfrom efrom i n N p E L EF).2 = (m : Int) ∧
      ((m : Int) < L →
        errorAt K f vfrom efrom i n ((1 - p) / (N : T)) EF ⟨a, r, c⟩ m < E) ∧
      ((∀ k : Nat, 1 ≤ k → (k : Int) ≤ L →
          ¬ errorAt K f vfrom efrom i n ((1 - p) / (N : T)) EF ⟨a, r, c⟩ k < E) →
        (m : Int) = L) ∧
      ((m : Int) = L ↔ ∀ k : Nat, 1 ≤ k → (k : Int) < L →
          ¬ errorAt K f vfrom efrom i n ((1 - p) / (N : T)) EF ⟨a, r, c⟩ k < E) := by
  obtain ⟨m, h1, h2, h3, h4, h5⟩ := loop_exit K a r c f vfrom efrom i n N p E L EF hL
  refine ⟨m, by rw [h3], ?_, ?_, ?_, ?_⟩
  · intro hlt
    exact h5.resolve_right (by omega)
  · intro hall
    rcases h5 with h | h
    · exact absurd h (hall m h1 h2)
    · exact h
  · intro hmL k hk1 hk2
    exact h4 k hk1 (by omega)
  · intro hall
    by_contra hne
    have hlt : (m : Int) < L := by omega
    exact hall m h1 hlt (h5.resolve_right hne)

/-- Witness for the amended C7 on the three-vertex graph (`E = 1/1000`, `L = 50`). -/
theorem count_below_cap_means_converged_witness :
    ∃ m : Nat, (pagerankMonolithicSeqLoop specKernels triRanks triRanks triContrib triFactor
        triVfrom triEfrom 0 3 3 (1/2) (1/1000) 50 1).2 = (m : Int) ∧
      ((m : Int) < 50 →
        errorAt specKernels triFactor triVfrom triEfrom 0 3 ((1 - 1/2) / ((3 : Nat) : ℚ)) 1
          ⟨triRanks, triRanks, triContrib⟩ m < 1/1000) ∧
      ((∀ k : Nat, 1 ≤ k → (k : Int) ≤ 50 →
          ¬ errorAt specKernels triFactor triVfrom triEfrom 0 3 ((1 - 1/2) / ((3 : Nat) : ℚ)) 1
            ⟨triRanks, triRanks, triContrib⟩ k < 1/1000) →
        (m : Int) = 50) ∧
      ((m : Int) = 50 ↔ ∀ k : Nat, 1 ≤ k → (k : Int) < 50 →
          ¬ errorAt specKernels triFactor triVfrom triEfrom 0 3 ((1 - 1/2) / ((3 : Nat) : ℚ)) 1
            ⟨triRanks, triRanks, triContrib⟩ k < 1/1000) :=
  count_below_cap_means_converged specKernels triRanks triRanks triContrib triFactor
    triVfrom triEfrom 0 3 3 (1/2) (1/1000) 50 1 (by decide)

/-- C5. With the accumulation kernel of the spec, the estimate written in iteration `k`
holds, at every window vertex `v`, the value `c0 + Σ c[u]` over the in-neighbours `u` of
`v` in `vfrom`/`efrom`, where `c` is the contribution buffer of that round and
`c0 = (1 - p) / N` involves neither `i` nor `n`; in particular the `a` and `c` left by a
run with `L ≥ 1` are related in this way. -/
theorem accumulation_floor_plus_in_contributions
    (hK : K.pagerankCalculate = pagerankCalculate) (v : Nat)
    (h1 : i ≤ v) (h2 : v < i + n) (ha : v < a.length) (hr : v < r.length) :
    (∀ k : Nat, 1 ≤ k →
      (estimate K f vfrom efrom i n ((1 - p) / (N : T)) ⟨a, r, c⟩ k).getD v 0 =
        (1 - p) / (N : T) +
          inContribution (roundStart K f vfrom efrom i n ((1 - p) / (N : T)) ⟨a, r, c⟩ (k - 1)).c
            vfrom efrom v) ∧
    (1 ≤ L →
      (pagerankMonolithicSeqLoop K a r c f vfrom efrom i n N p E L EF).1.a.getD v 0 =
        (1 - p) / (N : T) +
          inContribution (pagerankMonolithicSeqLoop K a r c f vfrom efrom i n N p E L EF).1.c
            vfrom efrom v) := by
  have hall : ∀ k : Nat,
      (estimate K f vfrom efrom i n ((1 - p) / (N : T)) ⟨a, r, c⟩ k).getD v 0 =
        (1 - p) / (N : T) +
          inContribution (roundStart K f vfrom efrom i n ((1 - p) / (N : T)) ⟨a, r, c⟩ (k - 1)).c
            vfrom efrom v := by
    intro k
    have hv := roundStart_index_valid K f vfrom efrom i n ((1 - p) / (N : T)) hK
      ⟨a, r, c⟩ v ha hr (k - 1)
    simp only [estimate, hK]
    exact pagerankCalculate_getD_window _ _ vfrom efrom i n _ v h1 h2 hv.1
  refine ⟨fun k _ => hall k, ?_⟩
  intro hL
  obtain ⟨m, -, -, h3, -, -⟩ := loop_exit K a r c f vfrom efrom i n N p E L EF hL
  rw [h3]
  exact hall m

/-- Witness for C5 on the three-vertex graph, at vertex `2` (two in-neighbours). -/
theorem accumulation_floor_plus_in_contributions_witness :
    (∀ k : Nat, 1 ≤ k →
      (estimate specKernels triFactor triVfrom triEfrom 0 3 ((1 - 1/2) / ((3 : Nat) : ℚ))
          ⟨triRanks, triRanks, triContrib⟩ k).getD 2 0 =
        (1 - 1/2) / ((3 : Nat) : ℚ) +
          inContribution (roundStart specKernels triFactor triVfrom triEfrom 0 3
            ((1 - 1/2) / ((3 : Nat) : ℚ)) ⟨triRanks, triRanks, triContrib⟩ (k - 1)).c
            triVfrom triEfrom 2) ∧
    ((1 : Int) ≤ 50 →
      (pagerankMonolithicSeqLoop specKernels triRanks triRanks triContrib triFactor
          triVfrom triEfrom 0 3 3 (1/2) (1/1000) 50 1).1.a.getD 2 0 =
        (1 - 1/2) / ((3 : Nat) : ℚ) +
          inContribution (pagerankMonolithicSeqLoop specKernels triRanks triRanks triContrib
            triFactor triVfrom triEfrom 0 3 3 (1/2) (1/1000) 50 1).1.c triVfrom triEfrom 2) :=
  accumulation_floor_plus_in_contributions specKernels triRanks triRanks triContrib triFactor
    triVfrom triEfrom 0 3 3 (1/2) (1/1000) 50 1 rfl 2 (by decide) (by decide) (by decide)
    (by decide)

/-- C8, counterexample.  On the 4-cycle (every out-degree is 1) with the damped factor
`f[v] = 0.85`, the run with `E = 0`, `L = 2` does not stop in iteration 1; at exit `r` is
the estimate of iteration 1 and `c` is the contribution buffer computed from it, and
`c[0] = 0.2125` is not `r[0] / outDegree(0) = 0.25`. -/
theorem contributions_not_rank_over_out_degree :
    (pagerankMonolithicSeqLoop specKernels cycleRanks cycleRanks cycleContrib cycleFactor
        cycleVfrom cycleEfrom 0 4 4 (17/20) 0 2 1).2 = 2 ∧
    (pagerankMonolithicSeqLoop specKernels cycleRanks cycleRanks cycleContrib cycleFactor
        cycleVfrom cycleEfrom 0 4 4 (17/20) 0 2 1).1.r =
      estimate specKernels cycleFactor cycleVfrom cycleEfrom 0 4 ((1 - 17/20) / ((4 : Nat) : ℚ))
        ⟨cycleRanks, cycleRanks, cycleContrib⟩ 1 ∧
    (pagerankMonolithicSeqLoop specKernels cycleRanks cycleRanks cycleContrib cycleFactor
        cycleVfrom cycleEfrom 0 4 4 (17/20) 0 2 1).1.c =
      (roundStart specKernels cycleFactor cycleVfrom cycleEfrom 0 4
        ((1 - 17/20) / ((4 : Nat) : ℚ)) ⟨cycleRanks, cycleRanks, cycleContrib⟩ 1).c ∧
    outDegree cycleVfrom cycleEfrom 4 0 = 1 ∧
    (pagerankMonolithicSeqLoop specKernels cycleRanks cycleRanks cycleContrib cycleFactor
        cycleVfrom cycleEfrom 0 4 4 (17/20) 0 2 1).1.c.getD 0 0 ≠
      (pagerankMonolithicSeqLoop specKernels cycleRanks cycleRanks cycleContrib cycleFactor
        cycleVfrom cycleEfrom 0 4 4 (17/20) 0 2 1).1.r.getD 0 0 /
        ((outDegree cycleVfrom cycleEfrom 4 0 : Nat) : ℚ) := by
  refine ⟨by decide!, by decide!, by decide!, by decide, by decide!⟩

/-- C8, amended.  With the scaling kernel of the spec, after every iteration `k` that does
not stop the loop (`1 ≤ k < l`), the loop goes on from the buffers `roundStart k`, in which
`r` is the estimate just produced, `c[v] = r[v] * f[v]` for every window vertex `v` (this
is `r[v] / outDegree(v)` when `f[v]` is the reciprocal out-degree), and this `c` is the one
read by the next accumulation. -/
theorem contributions_scaled_by_factor (hK : K.multiply = multiply) (m : Nat)
    (hret : (pagerankMonolithicSeqLoop K a r c f vfrom efrom i n N p E L EF).2 = (m : Int))
    (k v : Nat) (hk1 : 1 ≤ k) (hk2 : k < m) (h1 : i ≤ v) (h2 : v < i + n) (hc : v < c.length) :
    pagerankMonolithicSeqLoop K a r c f vfrom efrom i n N p E L EF =
      whileLoop K f vfrom efrom i n ((1 - p) / (N : T)) E L EF (L.toNat - k)
        (roundStart K f vfrom efrom i n ((1 - p) / (N : T)) ⟨a, r, c⟩ k) k ∧
    (roundStart K f vfrom efrom i n ((1 - p) / (N : T)) ⟨a, r, c⟩ k).r =
      estimate K f vfrom efrom i n ((1 - p) / (N : T)) ⟨a, r, c⟩ k ∧
    (roundStart K f vfrom efrom i n ((1 - p) / (N : T)) ⟨a, r, c⟩ k).c.getD v 0 =
      (estimate K f vfrom efrom i n ((1 - p) / (N : T)) ⟨a, r, c⟩ k).getD v 0 * f.getD v 0 ∧
    (f.getD v 0 = 1 / ((outDegree vfrom efrom N v : Nat) : T) →
      (roundStart K f vfrom efrom i n ((1 - p) / (N : T)) ⟨a, r, c⟩ k).c.getD v 0 =
        (estimate K f vfrom efrom i n ((1 - p) / (N : T)) ⟨a, r, c⟩ k).getD v 0 /
          ((outDegree vfrom efrom N v : Nat) : T)) ∧
    estimate K f vfrom efrom i n ((1 - p) / (N : T)) ⟨a, r, c⟩ (k + 1) =
      K.pagerankCalculate (roundStart K f vfrom efrom i n ((1 - p) / (N : T)) ⟨a, r, c⟩ k).a
        (roundStart K f vfrom efrom i n ((1 - p) / (N : T)) ⟨a, r, c⟩ k).c vfrom efrom i n
        ((1 - p) / (N : T)) := by
  have hL : 1 ≤ L := by
    by_contra hcon
    rw [loop_not_entered K a r c f vfrom efrom i n N p E L EF (by omega)] at hret
    have hret2 : (0 : Int) = (m : Int) := hret
    omega
  obtain ⟨m', -, hm2, h3, h4, -⟩ := loop_exit K a r c f vfrom efrom i n N p E L EF hL
  have hmm : m' = m := by
    rw [h3] at hret
    have hret2 : (m' : Int) = (m : Int) := hret
    exact_mod_cast hret2
  subst hmm
  obtain ⟨j, rfl⟩ : ∃ j, k = j + 1 := ⟨k - 1, by omega⟩
  have hprod : (roundStart K f vfrom efrom i n ((1 - p) / (N : T)) ⟨a, r, c⟩ (j + 1)).c.getD v 0 =
      (estimate K f vfrom efrom i n ((1 - p) / (N : T)) ⟨a, r, c⟩ (j + 1)).getD v 0 *
        f.getD v 0 := by
    have hlen := roundStart_c_length K f vfrom efrom i n ((1 - p) / (N : T)) hK ⟨a, r, c⟩ j
    simp only [roundStart, estimate, Nat.add_sub_cancel, hK]
    exact multiply_getD_window _ _ f i n v h1 h2 (by rw [hlen]; exact hc)
  refine ⟨?_, ?_, hprod, ?_, ?_⟩
  · exact whileLoop_reaches K f vfrom efrom i n ((1 - p) / (N : T)) E L EF ⟨a, r, c⟩ m' hm2 h4
      (j + 1) hk2
  · simp [roundStart, estimate]
  · intro hf
    rw [hprod, hf]
    ring
  · simp [estimate]

/-- Witness for the amended C8 on the three-vertex graph: `E = 0`, `L = 3`, iteration `1`,
vertex `2`. -/
theorem contributions_scaled_by_factor_witness :
    (roundStart specKernels triFactor triVfrom triEfrom 0 3 ((1 - 1/2) / ((3 : Nat) : ℚ))
        ⟨triRanks, triRanks, triContrib⟩ 1).c.getD 2 0 =
      (estimate specKernels triFactor triVfrom triEfrom 0 3 ((1 - 1/2) / ((3 : Nat) : ℚ))
        ⟨triRanks, triRanks, triContrib⟩ 1).getD 2 0 * triFactor.getD 2 0 :=
  (contributions_scaled_by_factor specKernels triRanks triRanks triContrib triFactor
    triVfrom triEfrom 0 3 3 (1/2) 0 3 1 rfl 3 (by decide!) 1 2 (by decide) (by decide)
    (by decide) (by decide) (by decide)).2.2.1

/-- C9. Mass conservation in exact arithmetic, full window `[0, N)` with `N ≥ 1` and the
accumulation kernel of the spec: the estimate of every iteration sums to `(1 - p)` plus the
sum over all edges `u→v` of `c[u]`; so does `a` after the one-iteration run (`L = 1`); and
when every edge source is a vertex, every vertex has out-degree at least 1, the previous
ranks sum to 1 and `c[u] = p * r[u] / outDegree(u)`, the new ranks sum to 1. -/
theorem mass_conservation_full_window (hK : K.pagerankCalculate = pagerankCalculate)
    (hN : 1 ≤ N) (ha : a.length = N) (hr : r.length = N) :
    (∀ k : Nat, 1 ≤ k →
      (estimate K f vfrom efrom 0 N ((1 - p) / (N : T)) ⟨a, r, c⟩ k).sum =
        (1 - p) + ((edgeSources vfrom efrom N).map (fun u =>
          (roundStart K f vfrom efrom 0 N ((1 - p) / (N : T)) ⟨a, r, c⟩ (k - 1)).c.getD u 0)).sum) ∧
    (pagerankMonolithicSeqLoop K a r c f vfrom efrom 0 N N p E 1 EF).1.a.sum =
      (1 - p) + ((edgeSources vfrom efrom N).map (fun u => c.getD u 0)).sum ∧
    ((∀ u ∈ edgeSources vfrom efrom N, u < N) →
      (∀ u, u < N → 1 ≤ outDegree vfrom efrom N u) →
      r.sum = 1 →
      (∀ u, u < N →
        c.getD u 0 = p * r.getD u 0 / ((outDegree vfrom efrom N u : Nat) : T)) →
      (pagerankMonolithicSeqLoop K a r c f vfrom efrom 0 N N p E 1 EF).1.a.sum = 1) := by
  have hall : ∀ k : Nat,
      (estimate K f vfrom efrom 0 N ((1 - p) / (N : T)) ⟨a, r, c⟩ k).sum =
        (1 - p) + ((edgeSources vfrom efrom N).map (fun u =>
          (roundStart K f vfrom efrom 0 N ((1 - p) / (N : T)) ⟨a, r, c⟩ (k - 1)).c.getD u 0)).sum := by
    intro k
    have hlen := roundStart_lengths K f vfrom efrom 0 N ((1 - p) / (N : T)) hK ⟨a, r, c⟩ N
      ha hr (k - 1)
    simp only [estimate, hK]
    exact pagerankCalculate_full_sum _ _ vfrom efrom N p hN hlen.1
  obtain ⟨m, h1, h2, h3, -, -⟩ := loop_exit K a r c f vfrom efrom 0 N N p E 1 EF (le_refl 1)
  have hm : m = 1 := by omega
  subst hm
  have hone : (pagerankMonolithicSeqLoop K a r c f vfrom efrom 0 N N p E 1 EF).1.a.sum =
      (1 - p) + ((edgeSources vfrom efrom N).map (fun u => c.getD u 0)).sum := by
    rw [h3]
    exact hall 1
  refine ⟨fun k _ => hall k, hone, ?_⟩
  intro hsrc hdeg hsum hc
  rw [hone, damped_edge_sum r c vfrom efrom N p hr hsrc hdeg hc, hsum]
  ring

/-- Witness for C9 on the three-vertex graph (`p = 1/2`, out-degrees `2, 1, 1`): the ranks
after one iteration sum to 1. -/
theorem mass_conservation_full_window_witness :
    (pagerankMonolithicSeqLoop specKernels triRanks triRanks triContrib triFactor
        triVfrom triEfrom 0 3 3 (1/2) (1/1000) 1 1).1.a.sum = 1 :=
  (mass_conservation_full_window specKernels triRanks triRanks triContrib triFactor
    triVfrom triEfrom 3 (1/2) (1/1000) 1 rfl (by decide) rfl rfl).2.2
    (by decide) (by decide) (by decide!) (by decide!)

/-- C10. The example scenario: 4-cycle `0→1→2→3→0`, `p = 0.85`, `E = 1e-6`, `L = 100`,
`N = 4`, full window, ranks `0.25` in both rank buffers and the contributions
`0.85 * 0.25` precomputed from them.  With the accumulation kernel of the spec and any
error kernel that is zero on a vector against itself, the loop returns `1` (which is in
`[1, 100)`) and leaves `a[v] = 0.25` at each of the four vertices. -/
theorem cycle_example_converges (K : Kernels ℚ) (f : List ℚ) (EF : Int)
    (hcalc : K.pagerankCalculate = pagerankCalculate)
    (herr : ∀ x : List ℚ, K.pagerankError x x 0 4 EF = 0) :
    (pagerankMonolithicSeqLoop K cycleRanks cycleRanks cycleContrib f cycleVfrom cycleEfrom
        0 4 4 (17/20) (1/1000000) 100 EF).2 = 1 ∧
    1 ≤ (pagerankMonolithicSeqLoop K cycleRanks cycleRanks cycleContrib f cycleVfrom cycleEfrom
        0 4 4 (17/20) (1/1000000) 100 EF).2 ∧
    (pagerankMonolithicSeqLoop K cycleRanks cycleRanks cycleContrib f cycleVfrom cycleEfrom
        0 4 4 (17/20) (1/1000000) 100 EF).2 < 100 ∧
    (pagerankMonolithicSeqLoop K cycleRanks cycleRanks cycleContrib f cycleVfrom cycleEfrom
        0 4 4 (17/20) (1/1000000) 100 EF).1.a = [1/4, 1/4, 1/4, 1/4] := by
  have hval : pagerankCalculate cycleRanks cycleContrib cycleVfrom cycleEfrom 0 4
      ((1 - 17/20) / ((4 : Nat) : ℚ)) = cycleRanks := by decide!
  have hest : estimate K f cycleVfrom cycleEfrom 0 4 ((1 - 17/20) / ((4 : Nat) : ℚ))
      ⟨cycleRanks, cycleRanks, cycleContrib⟩ 1 = cycleRanks := by
    simp only [estimate, roundStart, hcalc]
    exact hval
  have herr1 : errorAt K f cycleVfrom cycleEfrom 0 4 ((1 - 17/20) / ((4 : Nat) : ℚ)) EF
      ⟨cycleRanks, cycleRanks, cycleContrib⟩ 1 < 1/1000000 := by
    unfold errorAt
    rw [hest]
    show K.pagerankError cycleRanks cycleRanks 0 4 EF < 1/1000000
    rw [herr]
    norm_num
  obtain ⟨m, h1, -, h3, h4, -⟩ := loop_exit K cycleRanks cycleRanks cycleContrib f
    cycleVfrom cycleEfrom 0 4 4 (17/20) (1/1000000) 100 EF (by decide)
  have hm : m = 1 := by
    by_contra hne
    exact h4 1 (le_refl 1) (by omega) herr1
  subst hm
  rw [h3]
  refine ⟨rfl, ?_, ?_, ?_⟩
  · show (1 : Int) ≤ ((1 : Nat) : Int)
    decide
  · show ((1 : Nat) : Int) < 100
    decide
  show estimate K f cycleVfrom cycleEfrom 0 4 ((1 - 17/20) / ((4 : Nat) : ℚ))
      ⟨cycleRanks, cycleRanks, cycleContrib⟩ 1 = _
  rw [hest]
  rfl

/-- Witness for C10 with the L1 error kernel and the factor vector `0.85`. -/
theorem cycle_example_converges_witness :
    (pagerankMonolithicSeqLoop specKernels cycleRanks cycleRanks cycleContrib cycleFactor
        cycleVfrom cycleEfrom 0 4 4 (17/20) (1/1000000) 100 1).2 = 1 ∧
    (pagerankMonolithicSeqLoop specKernels cycleRanks cycleRanks cycleContrib cycleFactor
        cycleVfrom cycleEfrom 0 4 4 (17/20) (1/1000000) 100 1).1.a = [1/4, 1/4, 1/4, 1/4] :=
  have h := cycle_example_converges specKernels cycleFactor 1 rfl
    (fun x => l1Error_self x 0 4 1)
  ⟨h.1, h.2.2.2⟩

/-- C18. With `L ≤ 0` the loop returns `0`, leaves `a`, `r` and `c` as they were, and
performs no kernel call and no swap (so the range `[1, L]` of the count needs `L ≥ 1`). -/
theorem loop_with_nonpositive_cap_is_identity (hL : L ≤ 0) :
    pagerankMonolithicSeqLoop K a r c f vfrom efrom i n N p E L EF = (⟨a, r, c⟩, 0) ∧
    (pagerankMonolithicSeqLoopTraced K a r c f vfrom efrom i n N p E L EF).1 =
      pagerankMonolithicSeqLoop K a r c f vfrom efrom i n N p E L EF ∧
    (pagerankMonolithicSeqLoopTraced K a r c f vfrom efrom i n N p E L EF).2 = [] := by
  have h0 : L.toNat = 0 := by omega
  refine ⟨?_, ?_, ?_⟩
  · simp [pagerankMonolithicSeqLoop, h0, whileLoop]
  · simp [pagerankMonolithicSeqLoopTraced, pagerankMonolithicSeqLoop, h0, whileLoop,
      whileLoopTraced]
  · simp [pagerankMonolithicSeqLoopTraced, h0, whileLoopTraced]

/-- Witness for C18 on the three-vertex graph with `L = 0`. -/
theorem loop_with_nonpositive_cap_is_identity_witness :
    pagerankMonolithicSeqLoop specKernels triRanks triRanks triContrib triFactor
        triVfrom triEfrom 0 3 3 (1/2) (1/1000) 0 1 = (⟨triRanks, triRanks, triContrib⟩, 0) ∧
    (pagerankMonolithicSeqLoopTraced specKernels triRanks triRanks triContrib triFactor
        triVfrom triEfrom 0 3 3 (1/2) (1/1000) 0 1).1 =
      pagerankMonolithicSeqLoop specKernels triRanks triRanks triContrib triFactor
        triVfrom triEfrom 0 3 3 (1/2) (1/1000) 0 1 ∧
    (pagerankMonolithicSeqLoopTraced specKernels triRanks triRanks triContrib triFactor
        triVfrom triEfrom 0 3 3 (1/2) (1/1000) 0 1).2 = [] :=
  loop_with_nonpositive_cap_is_identity specKernels triRanks triRanks triContrib triFactor
    triVfrom triEfrom 0 3 3 (1/2) (1/1000) 0 1 (by decide)

/-- C16. In a run that returns `l ≥ 1` the log of operations is `l - 1` full rounds
(accumulate, measure, `multiply`, `swap`) followed by one last round (accumulate, measure):
the accumulation and error kernels are called `l` times, `multiply` and `swap` are
performed `l - 1` times, none of them after the final accumulation; the `c` left at exit is
the initial `c` when `l = 1` and otherwise the one `multiply` derived from the estimate of
iteration `l - 1`. -/
theorem loop_call_counts (m : Nat) (hm : 1 ≤ m)
    (hret : (pagerankMonolithicSeqLoop K a r c f vfrom efrom i n N p E L EF).2 = (m : Int)) :
    (pagerankMonolithicSeqLoopTraced K a r c f vfrom efrom i n N p E L EF).1 =
      pagerankMonolithicSeqLoop K a r c f vfrom efrom i n N p E L EF ∧
    (pagerankMonolithicSeqLoopTraced K a r c f vfrom efrom i n N p E L EF).2 =
      (List.replicate (m - 1) fullRound).flatten ++ lastRound ∧
    ((pagerankMonolithicSeqLoopTraced K a r c f vfrom efrom i n N p E L EF).2.count
        KernelCall.calculate = m ∧
      (pagerankMonolithicSeqLoopTraced K a r c f vfrom efrom i n N p E L EF).2.count
        KernelCall.error = m ∧
      (pagerankMonolithicSeqLoopTraced K a r c f vfrom efrom i n N p E L EF).2.count
        KernelCall.multiply = m - 1 ∧
      (pagerankMonolithicSeqLoopTraced K a r c f vfrom efrom i n N p E L EF).2.count
        KernelCall.swap = m - 1) ∧
    (pagerankMonolithicSeqLoop K a r c f vfrom efrom i n N p E L EF).1.c =
      if m = 1 then c
      else K.multiply
        (roundStart K f vfrom efrom i n ((1 - p) / (N : T)) ⟨a, r, c⟩ (m - 2)).c
        (estimate K f vfrom efrom i n ((1 - p) / (N : T)) ⟨a, r, c⟩ (m - 1)) f i n := by
  have hL : 1 ≤ L := by
    by_contra hcon
    rw [loop_not_entered K a r c f vfrom efrom i n N p E L EF (by omega)] at hret
    have hret2 : (0 : Int) = (m : Int) := hret
    omega
  have herase : (pagerankMonolithicSeqLoopTraced K a r c f vfrom efrom i n N p E L EF).1 =
      pagerankMonolithicSeqLoop K a r c f vfrom efrom i n N p E L EF :=
    whileLoopTraced_erase K f vfrom efrom i n ((1 - p) / (N : T)) E L EF L.toNat ⟨a, r, c⟩ 0 []
  obtain ⟨k, hk1, hk2⟩ := whileLoopTraced_log K f vfrom efrom i n ((1 - p) / (N : T)) E L EF
    L.toNat ⟨a, r, c⟩ 0 [] (by omega) (by rw [Int.toNat_of_nonneg (by omega)]; simp)
  have hlog : (pagerankMonolithicSeqLoopTraced K a r c f vfrom efrom i n N p E L EF).2 =
      (List.replicate k fullRound).flatten ++ lastRound := by
    simpa [pagerankMonolithicSeqLoopTraced] using hk2
  have hcount : (pagerankMonolithicSeqLoopTraced K a r c f vfrom efrom i n N p E L EF).1.2 =
      (0 : Int) + k + 1 := hk1
  rw [herase, hret] at hcount
  have hkm : k = m - 1 := by omega
  subst hkm
  refine ⟨herase, hlog, ⟨?_, ?_, ?_, ?_⟩, ?_⟩
  · rw [hlog, List.count_append, count_fullRounds]
    have h1 : fullRound.count KernelCall.calculate = 1 := by decide
    have h2 : lastRound.count KernelCall.calculate = 1 := by decide
    rw [h1, h2]; omega
  · rw [hlog, List.count_append, count_fullRounds]
    have h1 : fullRound.count KernelCall.error = 1 := by decide
    have h2 : lastRound.count KernelCall.error = 1 := by decide
    rw [h1, h2]; omega
  · rw [hlog, List.count_append, count_fullRounds]
    have h1 : fullRound.count KernelCall.multiply = 1 := by decide
    have h2 : lastRound.count KernelCall.multiply = 0 := by decide
    rw [h1, h2]; omega
  · rw [hlog, List.count_append, count_fullRounds]
    have h1 : fullRound.count KernelCall.swap = 1 := by decide
    have h2 : lastRound.count KernelCall.swap = 0 := by decide
    rw [h1, h2]; omega
  · obtain ⟨m', -, -, h3, -, -⟩ := loop_exit K a r c f vfrom efrom i n N p E L EF hL
    have hmm : m' = m := by
      rw [h3] at hret
      have hret2 : (m' : Int) = (m : Int) := hret
      exact_mod_cast hret2
    subst hmm
    rw [h3]
    by_cases h1 : m' = 1
    · subst h1; simp [exitBuffers, roundStart]
    · obtain ⟨j, rfl⟩ : ∃ j, m' = j + 2 := ⟨m' - 2, by omega⟩
      simp [exitBuffers, roundStart, estimate]

/-- Witness for C16 on the three-vertex graph: the run with `E = 1/1000`, `L = 50` returns
`7`. -/
theorem loop_call_counts_witness :
    (pagerankMonolithicSeqLoopTraced specKernels triRanks triRanks triContrib triFactor
        triVfrom triEfrom 0 3 3 (1/2) (1/1000) 50 1).2 =
      (List.replicate (7 - 1) fullRound).flatten ++ lastRound :=
  (loop_call_counts specKernels triRanks triRanks triContrib triFactor
    triVfrom triEfrom 0 3 3 (1/2) (1/1000) 50 1 7 (by decide) (by decide!)).2.1

/-- C17. Frame outside the window, with the kernels of the spec: for a run that returns
`l ≥ 1` and an index `v` outside `[i, i+n)`, the final `a[v]` is the initial `a[v]` when `l`
is odd and the initial `r[v]` when `l` is even, the final `r[v]` is the initial `r[v]` when
`l` is odd and the initial `a[v]` when `l` is even, and `c[v]` is unchanged; when the
initial `a` and `r` agree at `v` the returned `a[v]` is that value whatever `l` is. -/
theorem frame_outside_window (hcalc : K.pagerankCalculate = pagerankCalculate)
    (hmul : K.multiply = multiply) (m : Nat) (hm : 1 ≤ m)
    (hret : (pagerankMonolithicSeqLoop K a r c f vfrom efrom i n N p E L EF).2 = (m : Int))
    (v : Nat) (hv : ¬ (i ≤ v ∧ v < i + n)) :
    (pagerankMonolithicSeqLoop K a r c f vfrom efrom i n N p E L EF).1.a.getD v 0 =
      (if m % 2 = 1 then a.getD v 0 else r.getD v 0) ∧
    (pagerankMonolithicSeqLoop K a r c f vfrom efrom i n N p E L EF).1.r.getD v 0 =
      (if m % 2 = 1 then r.getD v 0 else a.getD v 0) ∧
    (pagerankMonolithicSeqLoop K a r c f vfrom efrom i n N p E L EF).1.c.getD v 0 =
      c.getD v 0 ∧
    (a.getD v 0 = r.getD v 0 →
      (pagerankMonolithicSeqLoop K a r c f vfrom efrom i n N p E L EF).1.a.getD v 0 =
        a.getD v 0) := by
  have hL : 1 ≤ L := by
    by_contra hcon
    rw [loop_not_entered K a r c f vfrom efrom i n N p E L EF (by omega)] at hret
    have hret2 : (0 : Int) = (m : Int) := hret
    omega
  obtain ⟨m', -, -, h3, -, -⟩ := loop_exit K a r c f vfrom efrom i n N p E L EF hL
  have hmm : m' = m := by
    rw [h3] at hret
    have hret2 : (m' : Int) = (m : Int) := hret
    exact_mod_cast hret2
  subst hmm
  obtain ⟨ha, hr, hc⟩ := roundStart_outside K f vfrom efrom i n ((1 - p) / (N : T)) hcalc hmul
    ⟨a, r, c⟩ v hv (m' - 1)
  have hfa : (pagerankMonolithicSeqLoop K a r c f vfrom efrom i n N p E L EF).1.a.getD v 0 =
      (if m' % 2 = 1 then a.getD v 0 else r.getD v 0) := by
    rw [h3]
    simp only [exitBuffers, estimate, hcalc]
    rw [pagerankCalculate_getD_outside _ _ vfrom efrom i n _ v hv, ha]
    rcases Nat.mod_two_eq_zero_or_one m' with h | h
    · have h2 : (m' - 1) % 2 = 1 := by omega
      simp [h, h2]
    · have h2 : (m' - 1) % 2 = 0 := by omega
      simp [h, h2]
  refine ⟨hfa, ?_, ?_, ?_⟩
  · rw [h3]
    simp only [exitBuffers]
    rw [hr]
    rcases Nat.mod_two_eq_zero_or_one m' with h | h
    · have h2 : (m' - 1) % 2 = 1 := by omega
      simp [h, h2]
    · have h2 : (m' - 1) % 2 = 0 := by omega
      simp [h, h2]
  · rw [h3]
    simp only [exitBuffers]
    exact hc
  · intro heq
    rw [hfa, ← heq]
    simp

/-- Witness for C17 on the three-vertex graph with the window `[0, 2)`: the run with
`E = 0`, `L = 2` returns `2`, and at the outside vertex `2` the returned `a` holds the
initial `r[2] = 1/3`, not the initial `a[2] = 1/2`. -/
theorem frame_outside_window_witness :
    (pagerankMonolithicSeqLoop specKernels [1/3, 1/3, 1/2] triRanks triContrib triFactor
        triVfrom triEfrom 0 2 3 (1/2) 0 2 1).1.a.getD 2 0 =
      (if 2 % 2 = 1 then ([1/3, 1/3, 1/2] : List ℚ).getD 2 0 else triRanks.getD 2 0) :=
  (frame_outside_window specKernels [1/3, 1/3, 1/2] triRanks triContrib triFactor
    triVfrom triEfrom 0 2 3 (1/2) 0 2 1 rfl rfl 2 (by decide) (by decide!) 2 (by decide)).1

/-- C15. Degree-zero vertex, with the kernels of the spec.  The loop is handed no degree:
its only division is `(1 - p) / N`, the accumulation adds and the scaling multiplies by
`f`.  So, with checked division, a run on a graph with at least one vertex (`N ≠ 0`)
performs no division by zero, whatever the out-degrees are, and returns what the loop
returns.  And a vertex `u` that is an in-neighbour of no window vertex contributes nothing
forward: two runs whose `c` and `f` differ at most at `u` return the same count, the same
`a` (at every vertex) and the same `r`, and their final `c` differ at most at `u`. -/
theorem dangling_vertex_no_division_error_and_no_contribution
    (hcalc : K.pagerankCalculate = pagerankCalculate)
    (hmul : K.multiply = multiply) (u : Nat)
    (hu : ∀ v, i ≤ v → v < i + n → u ∉ inNeighbours vfrom efrom v)
    (c2 f2 : List T) (hlen : c.length = c2.length)
    (hc : ∀ w, w ≠ u → c.getD w 0 = c2.getD w 0)
    (hf : ∀ w, w ≠ u → f.getD w 0 = f2.getD w 0) :
    (N ≠ 0 →
      pagerankMonolithicSeqLoopChecked K.checked a r c f vfrom efrom i n N p E L EF =
        some (pagerankMonolithicSeqLoop K a r c f vfrom efrom i n N p E L EF) ∧
      pagerankMonolithicSeqLoopChecked K.checked a r c2 f2 vfrom efrom i n N p E L EF =
        some (pagerankMonolithicSeqLoop K a r c2 f2 vfrom efrom i n N p E L EF)) ∧
    (pagerankMonolithicSeqLoop K a r c f vfrom efrom i n N p E L EF).2 =
      (pagerankMonolithicSeqLoop K a r c2 f2 vfrom efrom i n N p E L EF).2 ∧
    (pagerankMonolithicSeqLoop K a r c f vfrom efrom i n N p E L EF).1.a =
      (pagerankMonolithicSeqLoop K a r c2 f2 vfrom efrom i n N p E L EF).1.a ∧
    (pagerankMonolithicSeqLoop K a r c f vfrom efrom i n N p E L EF).1.r =
      (pagerankMonolithicSeqLoop K a r c2 f2 vfrom efrom i n N p E L EF).1.r ∧
    (∀ w, w ≠ u →
      (pagerankMonolithicSeqLoop K a r c f vfrom efrom i n N p E L EF).1.c.getD w 0 =
        (pagerankMonolithicSeqLoop K a r c2 f2 vfrom efrom i n N p E L EF).1.c.getD w 0) := by
  refine ⟨?_, whileLoop_congr_off K f vfrom efrom i n ((1 - p) / (N : T)) E L EF hcalc hmul
    f2 u hu hf L.toNat ⟨a, r, c⟩ ⟨a, r, c2⟩ 0 rfl rfl hlen hc⟩
  intro hN
  have hN0 : (N : T) ≠ 0 := by exact_mod_cast hN
  constructor
  · simp only [pagerankMonolithicSeqLoopChecked, checkedDiv, if_neg hN0,
      pagerankMonolithicSeqLoop]
    exact whileLoopChecked_of_unchecked K f vfrom efrom i n _ E L EF L.toNat _ 0
  · simp only [pagerankMonolithicSeqLoopChecked, checkedDiv, if_neg hN0,
      pagerankMonolithicSeqLoop]
    exact whileLoopChecked_of_unchecked K f2 vfrom efrom i n _ E L EF L.toNat _ 0

/-- Witness for C15 on the graph `0→1, 0→2, 1→0`, whose vertex `2` has no out-edge: the
checked run performs no division by zero, and setting `c[2] = 5` and `f[2] = 7` changes
neither the count nor the ranks. -/
theorem dangling_vertex_no_division_error_and_no_contribution_witness :
    pagerankMonolithicSeqLoopChecked specKernels.checked triRanks triRanks dangleContrib
        dangleFactor dangleVfrom dangleEfrom 0 3 3 (1/2) (1/1000) 50 1 =
      some (pagerankMonolithicSeqLoop specKernels triRanks triRanks dangleContrib dangleFactor
        dangleVfrom dangleEfrom 0 3 3 (1/2) (1/1000) 50 1) ∧
    (pagerankMonolithicSeqLoop specKernels triRanks triRanks dangleContrib dangleFactor
        dangleVfrom dangleEfrom 0 3 3 (1/2) (1/1000) 50 1).2 =
      (pagerankMonolithicSeqLoop specKernels triRanks triRanks (dangleContrib.set 2 5)
        (dangleFactor.set 2 7) dangleVfrom dangleEfrom 0 3 3 (1/2) (1/1000) 50 1).2 ∧
    (pagerankMonolithicSeqLoop specKernels triRanks triRanks dangleContrib dangleFactor
        dangleVfrom dangleEfrom 0 3 3 (1/2) (1/1000) 50 1).1.a =
      (pagerankMonolithicSeqLoop specKernels triRanks triRanks (dangleContrib.set 2 5)
        (dangleFactor.set 2 7) dangleVfrom dangleEfrom 0 3 3 (1/2) (1/1000) 50 1).1.a :=
  have h := dangling_vertex_no_division_error_and_no_contribution specKernels triRanks
    triRanks dangleContrib dangleFactor dangleVfrom dangleEfrom 0 3 3 (1/2) (1/1000) 50 1
    rfl rfl 2
    (by intro v _ h2; interval_cases v <;> decide)
    (dangleContrib.set 2 5) (dangleFactor.set 2 7) (by simp)
    (fun w hw => getD_set_of_ne dangleContrib 2 w 5 hw)
    (fun w hw => getD_set_of_ne dangleFactor 2 w 7 hw)
  ⟨(h.1 (by decide)).1, h.2.1, h.2.2.1⟩

/-- The checked model sees a division by a zero out-degree: on the same graph (out-degrees
`2, 1, 0`), with the scaling replaced by the quotient `a[v] / outDegree(v)`, the run fails
in the first scaling. -/
theorem quotient_scaling_fails_on_dangling_vertex :
    pagerankMonolithicSeqLoopChecked
      ⟨specKernels.checked.pagerankCalculate, specKernels.checked.pagerankError,
        quotientMultiply [2, 1, 0]⟩
      triRanks triRanks dangleContrib dangleFactor dangleVfrom dangleEfrom 0 3 3 (1/2)
      (1/1000) 50 1 = none := by
  decide!

/-- C11, counterexample.  In floating point the error can stall.  The 4-cycle with
`p = 0.85`, ranks `0.25` except one unit in the last place more at vertex `0`, matching
contributions and the damped factor, in `float` (24 significand bits, `E = 2^-30`) and in
`double` (53 bits, `E = 2^-60`): all inputs are floating-point numbers, the loop's own
`1 - p` and `(1 - p) / N` are exact, every iteration has an error of at least `E` (the
surplus rotates around the cycle without shrinking), so the loop returns `L` for every
`L ≥ 1` and no cap `L0` makes the count fall below `L`. -/
theorem float_run_stalls_above_tolerance :
    (roundFloat 24 (17/20) = damping32 ∧ roundFloat 24 (1 - damping32) = 1 - damping32 ∧
      roundFloat 24 ((1 - damping32) / ((4 : Nat) : ℚ)) = (1 - damping32) / ((4 : Nat) : ℚ) ∧
      stallRanks32.map (roundFloat 24) = stallRanks32) ∧
    (∀ L : Int, 1 ≤ L →
      (pagerankMonolithicSeqLoop (floatKernels 24) stallRanks32 stallRanks32 stallContrib32
        stallFactor32 cycleVfrom cycleEfrom 0 4 4 damping32 (1/2^30) L 1).2 = L) ∧
    (¬ ∃ L0 : Int, ∀ L : Int, L0 ≤ L →
      (pagerankMonolithicSeqLoop (floatKernels 24) stallRanks32 stallRanks32 stallContrib32
        stallFactor32 cycleVfrom cycleEfrom 0 4 4 damping32 (1/2^30) L 1).2 < L) ∧
    (roundFloat 53 (17/20) = damping64 ∧ roundFloat 53 (1 - damping64) = 1 - damping64 ∧
      roundFloat 53 ((1 - damping64) / ((4 : Nat) : ℚ)) = (1 - damping64) / ((4 : Nat) : ℚ) ∧
      stallRanks64.map (roundFloat 53) = stallRanks64) ∧
    (¬ ∃ L0 : Int, ∀ L : Int, L0 ≤ L →
      (pagerankMonolithicSeqLoop (floatKernels 53) stallRanks64 stallRanks64 stallContrib64
        stallFactor64 cycleVfrom cycleEfrom 0 4 4 damping64 (1/2^60) L 1).2 < L) := by
  have h32 : ∀ L : Int, 1 ≤ L →
      (pagerankMonolithicSeqLoop (floatKernels 24) stallRanks32 stallRanks32 stallContrib32
        stallFactor32 cycleVfrom cycleEfrom 0 4 4 damping32 (1/2^30) L 1).2 = L := by
    intro L hL
    apply loop_returns_cap_of_stalled _ _ _ _ _ _ _ _ _ _ _ _ _ _ hL
    apply stalled_forever _ _ _ _ _ _ _ _ _ _ 4 4 (by decide) (by decide!)
    intro k h1 h2
    interval_cases k <;> decide!
  have h64 : ∀ L : Int, 1 ≤ L →
      (pagerankMonolithicSeqLoop (floatKernels 53) stallRanks64 stallRanks64 stallContrib64
        stallFactor64 cycleVfrom cycleEfrom 0 4 4 damping64 (1/2^60) L 1).2 = L := by
    intro L hL
    apply loop_returns_cap_of_stalled _ _ _ _ _ _ _ _ _ _ _ _ _ _ hL
    apply stalled_forever _ _ _ _ _ _ _ _ _ _ 4 4 (by decide) (by decide!)
    intro k h1 h2
    interval_cases k <;> decide!
  refine ⟨by decide!, h32, ?_, by decide!, ?_⟩
  · rintro ⟨L0, hL0⟩
    have h := hL0 (max L0 1) (le_max_left _ _)
    rw [h32 (max L0 1) (le_max_right _ _)] at h
    exact lt_irrefl _ h
  · rintro ⟨L0, hL0⟩
    have h := hL0 (max L0 1) (le_max_left _ _)
    rw [h64 (max L0 1) (le_max_right _ _)] at h
    exact lt_irrefl _ h

/-- C11, amended.  Convergence in exact arithmetic, with the kernels of the spec over an
Archimedean field.  For every
graph whose edge sources are vertices (strongly connected or not), every `0 ≤ p < 1` and
every `E > 0`: when the run is over the full window, the factor is the damped one
(`f[u] = p / outDegree(u)`), `c` holds the matching contributions `r[u] * f[u]`, and the
error kernel is at most the L1 distance of its arguments, there is a cap `L0` such that for
every `L ≥ L0` the returned count is strictly below `L` and the last computed error is
below `E`. -/
theorem loop_converges_for_large_cap [Archimedean T]
    (hcalc : K.pagerankCalculate = pagerankCalculate) (hmul : K.multiply = multiply)
    (herr : ∀ x y : List T, K.pagerankError x y 0 N EF ≤ l1Error x y 0 N EF)
    (hp0 : 0 ≤ p) (hp1 : p < 1) (hE : 0 < E)
    (ha : a.length = N) (hr : r.length = N) (hcl : c.length = N)
    (hsrc : ∀ u ∈ edgeSources vfrom efrom N, u < N)
    (hf : ∀ u, u < N → f.getD u 0 = p / ((outDegree vfrom efrom N u : Nat) : T))
    (hc : ∀ u, u < N → c.getD u 0 = r.getD u 0 * f.getD u 0) :
    ∃ L0 : Int, ∀ L : Int, L0 ≤ L →
      (pagerankMonolithicSeqLoop K a r c f vfrom efrom 0 N N p E L EF).2 < L ∧
      ∃ m : Nat, (pagerankMonolithicSeqLoop K a r c f vfrom efrom 0 N N p E L EF).2 = (m : Int) ∧
        errorAt K f vfrom efrom 0 N ((1 - p) / (N : T)) EF ⟨a, r, c⟩ m < E := by
  have hfb : ∀ u, u < N → ((outDegree vfrom efrom N u : Nat) : T) * |f.getD u 0| ≤ p :=
    fun u hu => damped_factor_bound f vfrom efrom N p hp0 u (hf u hu)
  have he1 : 0 ≤ l1Error (estimate K f vfrom efrom 0 N ((1 - p) / (N : T)) ⟨a, r, c⟩ 1) r 0 N EF :=
    l1Error_nonneg _ _ _ _ _
  obtain ⟨k, hk⟩ : ∃ k : Nat,
      p ^ k * l1Error (estimate K f vfrom efrom 0 N ((1 - p) / (N : T)) ⟨a, r, c⟩ 1) r 0 N EF
        < E := by
    rcases he1.eq_or_lt with h0 | hpos
    · exact ⟨0, by rw [← h0]; simpa using hE⟩
    · obtain ⟨k, hk⟩ := exists_pow_lt_of_lt_one (div_pos hE hpos) hp1
      exact ⟨k, (lt_div_iff₀ hpos).mp hk⟩
  have hsmall : errorAt K f vfrom efrom 0 N ((1 - p) / (N : T)) EF ⟨a, r, c⟩ (k + 1) < E := by
    have hgeo := l1_distance_geometric K f vfrom efrom ((1 - p) / (N : T)) hcalc hmul ⟨a, r, c⟩
      N p EF hp0 ha hr hcl hsrc hfb hc k
    exact lt_of_le_of_lt ((herr _ _).trans hgeo) hk
  refine ⟨(k : Int) + 2, ?_⟩
  intro L hL
  obtain ⟨m, h1, h2, h3, h4, h5⟩ := loop_exit K a r c f vfrom efrom 0 N N p E L EF (by omega)
  have hmk : m ≤ k + 1 := by
    by_contra hcon
    exact h4 (k + 1) (by omega) (by omega) hsmall
  have hmL : (m : Int) < L := by omega
  rw [h3]
  exact ⟨hmL, m, rfl, h5.resolve_right (by omega)⟩

/-- Witness for C11 on the three-vertex graph with `p = 1/2`, `E = 1/1000` and the L1
error kernel. -/
theorem loop_converges_for_large_cap_witness :
    ∃ L0 : Int, ∀ L : Int, L0 ≤ L →
      (pagerankMonolithicSeqLoop specKernels triRanks triRanks triContrib triFactor
        triVfrom triEfrom 0 3 3 (1/2) (1/1000) L 1).2 < L ∧
      ∃ m : Nat, (pagerankMonolithicSeqLoop specKernels triRanks triRanks triContrib triFactor
          triVfrom triEfrom 0 3 3 (1/2) (1/1000) L 1).2 = (m : Int) ∧
        errorAt specKernels triFactor triVfrom triEfrom 0 3 ((1 - 1/2) / ((3 : Nat) : ℚ)) 1
          ⟨triRanks, triRanks, triContrib⟩ m < 1/1000 :=
  loop_converges_for_large_cap specKernels triRanks triRanks triContrib triFactor
    triVfrom triEfrom 3 (1/2) (1/1000) 1 rfl rfl (fun _ _ => le_refl _)
    (by norm_num) (by norm_num) (by norm_num) rfl rfl rfl (by decide) (by decide!) (by decide!)

/-- C12, counterexample.  New graph `0→1, 1→0, 2→0`, previous snapshot without the edge
`2→0`, `p = 0.85`, `E = 0.1`, `L = 500`, L1 error.  The static run on the previous snapshot
gives the ranks `[1/3, 1/3, 1/20]`; the dynamic run seeded with them over the affected
window `[0, 2)` and the static run on the new graph both converge (counts `1` and `12`),
the seed carries the static rank of the new graph at the unaffected vertex `2`, and yet at
vertex `1` the two results differ by more than `E`. -/
theorem dynamic_differs_from_static_by_more_than_tolerance :
    spurOldStatic.1.a = [1/3, 1/3, 1/20] ∧
    spurStatic.2 = 12 ∧ spurDynamic.2 = 1 ∧
    spurOldStatic.1.a.getD 2 0 = spurStatic.1.a.getD 2 0 ∧
    ¬ (∀ v, v < 3 → |spurDynamic.1.a.getD v 0 - spurStatic.1.a.getD v 0| ≤ 1/10) := by
  refine ⟨by decide!, by decide!, by decide!, by decide!, ?_⟩
  intro h
  have h1 := h 1 (by decide)
  have h2 : ¬ (|spurDynamic.1.a.getD 1 0 - spurStatic.1.a.getD 1 0| ≤ 1/10) := by decide!
  exact h2 h1

/-- C12, amended.  Kernels of the spec, an error kernel that is at least the L1 distance,
`0 ≤ p`, damped factor `f[u] = p / outDegree(u)`, affected window `[0, n)` with `n ≤ N`.
Let the static run be the loop over `[0, N)` from `a`, `r`, `c` with `c[u] = r[u] * f[u]`,
and the dynamic run the loop over `[0, n)` from the seed `q` in both rank buffers with the
contributions `q[u] * f[u]`.  When both runs converge (count below `L`) and the seed
carries the static ranks outside the window, the dynamic ranks equal the static ranks at
every vertex outside the window, and inside the window the L1 distance `X` between the two
satisfies `(1 - p) * X ≤ 2 * p * E`. -/
theorem dynamic_matches_static_up_to_scaled_tolerance
    (hcalc : K.pagerankCalculate = pagerankCalculate) (hmul : K.multiply = multiply)
    (herr : ∀ (x y : List T) (j m : Nat), l1Error x y j m EF ≤ K.pagerankError x y j m EF)
    (hp0 : 0 ≤ p) (hn : n ≤ N)
    (hsrc : ∀ u ∈ edgeSources vfrom efrom N, u < N)
    (hf : ∀ u, u < N → f.getD u 0 = p / ((outDegree vfrom efrom N u : Nat) : T))
    (ha : a.length = N) (hr : r.length = N) (hcl : c.length = N)
    (hc : ∀ u, u < N → c.getD u 0 = r.getD u 0 * f.getD u 0)
    (q cq : List T) (hq : q.length = N) (hcql : cq.length = N)
    (hcq : ∀ u, u < N → cq.getD u 0 = q.getD u 0 * f.getD u 0)
    (hconvS : (pagerankMonolithicSeqLoop K a r c f vfrom efrom 0 N N p E L EF).2 < L)
    (hconvD : (pagerankMonolithicSeqLoop K q q cq f vfrom efrom 0 n N p E L EF).2 < L)
    (hseed : ∀ v, n ≤ v → v < N →
      q.getD v 0 = (pagerankMonolithicSeqLoop K a r c f vfrom efrom 0 N N p E L EF).1.a.getD v 0) :
    (∀ v, n ≤ v → v < N →
      (pagerankMonolithicSeqLoop K q q cq f vfrom efrom 0 n N p E L EF).1.a.getD v 0 =
        (pagerankMonolithicSeqLoop K a r c f vfrom efrom 0 N N p E L EF).1.a.getD v 0) ∧
    (1 - p) * ((List.range n).map (fun v =>
      |(pagerankMonolithicSeqLoop K q q cq f vfrom efrom 0 n N p E L EF).1.a.getD v 0 -
        (pagerankMonolithicSeqLoop K a r c f vfrom efrom 0 N N p E L EF).1.a.getD v 0|)).sum ≤
      2 * p * E := by
  have hL : 1 ≤ L := by
    by_contra hcon
    rw [loop_not_entered K a r c f vfrom efrom 0 N N p E L EF (by omega)] at hconvS
    have h0 : (0 : Int) < L := hconvS
    omega
  obtain ⟨ms, -, -, hs3, -, hs5⟩ := loop_exit K a r c f vfrom efrom 0 N N p E L EF hL
  obtain ⟨md, -, -, hd3, -, hd5⟩ := loop_exit K q q cq f vfrom efrom 0 n N p E L EF hL
  rw [hs3] at hconvS hseed
  rw [hd3] at hconvD
  rw [hs3, hd3]
  have hmsL : (ms : Int) < L := hconvS
  have hmdL : (md : Int) < L := hconvD
  have hSe : l1Error (exitBuffers K f vfrom efrom 0 N ((1 - p) / (N : T)) ⟨a, r, c⟩ ms).a
      (exitBuffers K f vfrom efrom 0 N ((1 - p) / (N : T)) ⟨a, r, c⟩ ms).r 0 N EF < E :=
    lt_of_le_of_lt (herr _ _ _ _) (hs5.resolve_right (by omega))
  have hDe : l1Error (exitBuffers K f vfrom efrom 0 n ((1 - p) / (N : T)) ⟨q, q, cq⟩ md).a
      (exitBuffers K f vfrom efrom 0 n ((1 - p) / (N : T)) ⟨q, q, cq⟩ md).r 0 n EF < E :=
    lt_of_le_of_lt (herr _ _ _ _) (hd5.resolve_right (by omega))
  obtain ⟨hSa, hSc, -⟩ := exitBuffers_form K f vfrom efrom 0 N ((1 - p) / (N : T)) hcalc hmul
    ⟨a, r, c⟩ N ha hr hcl hc
    (by intro u hu hwin; exact absurd ⟨Nat.zero_le u, by omega⟩ hwin) ms
  obtain ⟨hDa, hDc, hDo⟩ := exitBuffers_form K f vfrom efrom 0 n ((1 - p) / (N : T)) hcalc hmul
    ⟨q, q, cq⟩ N hq hq hcql hcq (by intro u _ _; rfl) md
  have hDr : ∀ v, n ≤ v → v < N →
      (exitBuffers K f vfrom efrom 0 n ((1 - p) / (N : T)) ⟨q, q, cq⟩ md).r.getD v 0 =
        (exitBuffers K f vfrom efrom 0 N ((1 - p) / (N : T)) ⟨a, r, c⟩ ms).a.getD v 0 := by
    intro v h1 h2
    have hfr := (roundStart_outside K f vfrom efrom 0 n ((1 - p) / (N : T)) hcalc hmul
      ⟨q, q, cq⟩ v (by omega) (md - 1)).2.1
    have hq2 : (exitBuffers K f vfrom efrom 0 n ((1 - p) / (N : T)) ⟨q, q, cq⟩ md).r.getD v 0 =
        q.getD v 0 := by
      simp only [exitBuffers]
      rw [hfr]
      simp
    rw [hq2]
    exact hseed v h1 h2
  constructor
  · intro v h1 h2
    show (exitBuffers K f vfrom efrom 0 n ((1 - p) / (N : T)) ⟨q, q, cq⟩ md).a.getD v 0 =
      (exitBuffers K f vfrom efrom 0 N ((1 - p) / (N : T)) ⟨a, r, c⟩ ms).a.getD v 0
    rw [hDo v h2 (by omega)]
    exact hDr v h1 h2
  · exact compare_exit_buffers _ _ f vfrom efrom n N p ((1 - p) / (N : T)) E EF hn hp0 hsrc
      (fun u hu => damped_factor_bound f vfrom efrom N p hp0 u (hf u hu))
      (fun v hv => hSa v (Nat.zero_le v) (by omega) hv) hSc hSe
      (fun v hv => hDa v (Nat.zero_le v) (by omega) (by omega)) hDc hDr hDe

/-- Witness for the amended C12 on the graph `0→1, 1→0, 2→0` with `p = 1/2`, `E = 1/10`,
`L = 500`: static run from the uniform ranks, dynamic run over `[0, 2)` from the seed
`[1/3, 1/3, 1/6]`. -/
theorem dynamic_matches_static_up_to_scaled_tolerance_witness :
    (∀ v, 2 ≤ v → v < 3 →
      (pagerankMonolithicSeqLoop specKernels [1/3, 1/3, 1/6] [1/3, 1/3, 1/6] [1/6, 1/6, 1/12]
          [1/2, 1/2, 1/2] spurVfrom spurEfrom 0 2 3 (1/2) (1/10) 500 1).1.a.getD v 0 =
        (pagerankMonolithicSeqLoop specKernels spurUniform spurUniform [1/6, 1/6, 1/6]
          [1/2, 1/2, 1/2] spurVfrom spurEfrom 0 3 3 (1/2) (1/10) 500 1).1.a.getD v 0) ∧
    (1 - 1/2) * ((List.range 2).map (fun v =>
      |(pagerankMonolithicSeqLoop specKernels [1/3, 1/3, 1/6] [1/3, 1/3, 1/6] [1/6, 1/6, 1/12]
          [1/2, 1/2, 1/2] spurVfrom spurEfrom 0 2 3 (1/2) (1/10) 500 1).1.a.getD v 0 -
        (pagerankMonolithicSeqLoop specKernels spurUniform spurUniform [1/6, 1/6, 1/6]
          [1/2, 1/2, 1/2] spurVfrom spurEfrom 0 3 3 (1/2) (1/10) 500 1).1.a.getD v 0|)).sum ≤
      2 * (1/2) * (1/10 : ℚ) :=
  dynamic_matches_static_up_to_scaled_tolerance specKernels spurUniform spurUniform
    [1/6, 1/6, 1/6] [1/2, 1/2, 1/2] spurVfrom spurEfrom 2 3 (1/2) (1/10) 500 1 rfl rfl
    (fun _ _ _ _ => le_refl _) (by norm_num) (by decide) (by decide) (by decide!)
    rfl rfl rfl (by decide!) [1/3, 1/3, 1/6] [1/6, 1/6, 1/12] rfl rfl (by decide!)
    (by decide!) (by decide!)
    (by
      intro v h1 h2
      have hv : v = 2 := by omega
      subst hv
      decide!)

end LoopClaims



section OrchestrationClaims

variable {G H J O T : Type} [LinearOrderedField T]

/-- C6. `pagerankMonolithicSeqDynamic` short-circuits exactly when the affected count `n`
is `0`.  Then the result is `PagerankResult::initial(y, q)`: its iteration count is `0`, its
ranks are the seed, and it is the same whatever harness and kernels are plugged in (neither
`pagerankSeq` nor the loop is consulted).  When `n ≠ 0` the result is the harness run on
the new transpose `yt` with the order `ks`, window start `0`, window size `n` and the
loop function. -/
theorem dynamic_short_circuits_iff_nothing_affected (col : Collaborators G H J O T)
    (K : Kernels T) (x : G) (xt : H) (y : G) (yt : H) (q : Option (List T)) (o : O)
    (ks : J) (n : Nat) (hdyn : col.dynamicVertices x xt y yt = (ks, n)) :
    (n = 0 →
      pagerankMonolithicSeqDynamic col K x xt y yt q o =
        PagerankResult.initial col.seedlessRanks y q ∧
      (pagerankMonolithicSeqDynamic col K x xt y yt q o).iterations = 0 ∧
      (∀ seed, q = some seed → (pagerankMonolithicSeqDynamic col K x xt y yt q o).ranks = seed) ∧
      (∀ (seq : H → J → Nat → Nat → LoopFn T → Option (List T) → O → PagerankResult T)
          (K2 : Kernels T),
        pagerankMonolithicSeqDynamic { col with pagerankSeq := seq } K2 x xt y yt q o =
          pagerankMonolithicSeqDynamic col K x xt y yt q o)) ∧
    (n ≠ 0 →
      pagerankMonolithicSeqDynamic col K x xt y yt q o =
        col.pagerankSeq yt ks 0 n (pagerankMonolithicSeqLoop K) q o) := by
  constructor
  · intro hn
    subst hn
    refine ⟨?_, ?_, ?_, ?_⟩
    · simp [pagerankMonolithicSeqDynamic, hdyn]
    · simp [pagerankMonolithicSeqDynamic, hdyn, PagerankResult.initial]
    · intro seed hq
      simp [pagerankMonolithicSeqDynamic, hdyn, PagerankResult.initial, hq]
    · intro seq K2
      simp [pagerankMonolithicSeqDynamic, hdyn]
  · intro hn
    simp [pagerankMonolithicSeqDynamic, hdyn, hn]

/-- Witness for C6: the sample collaborators on an unchanged graph of three vertices, with
a seed. -/
theorem dynamic_short_circuits_iff_nothing_affected_witness :
    (pagerankMonolithicSeqDynamic sampleCollaborators specKernels 3 3 3 3
        (some [1/2, 1/4, 1/4]) (1/2, 1/1000, 50)).ranks = [1/2, 1/4, 1/4] ∧
    (pagerankMonolithicSeqDynamic sampleCollaborators specKernels 3 3 3 3
        (some [1/2, 1/4, 1/4]) (1/2, 1/1000, 50)).iterations = 0 :=
  have h := (dynamic_short_circuits_iff_nothing_affected sampleCollaborators specKernels
    3 3 3 3 (some [1/2, 1/4, 1/4]) (1/2, 1/1000, 50) [] 0 rfl).1 rfl
  ⟨h.2.2.1 _ rfl, h.2.1⟩

/-- C14. `pagerankMonolithicSeq` hands the harness the whole index range of the transpose:
window start `0`, window size `N = xt.order()`, vertex order `vertices(xt)`, together with
the loop function; and the overload that builds the transpose returns what the overload
with `xt = transposeWithDegree(x)` returns for the same `q` and options. -/
theorem static_runs_over_whole_range (col : Collaborators G H J O T) (K : Kernels T)
    (x : G) (xt : H) (q : Option (List T)) (o : O) :
    pagerankMonolithicSeq col K x xt q o =
      col.pagerankSeq xt (col.vertices xt) 0 (col.order xt) (pagerankMonolithicSeqLoop K) q o ∧
    pagerankMonolithicSeqFromGraph col K x q o =
      pagerankMonolithicSeq col K x (col.transposeWithDegree x) q o :=
  ⟨rfl, rfl⟩

/-- C13, counterexample.  On a graph without vertices (`xt.order() = 0`)
`pagerankMonolithicSeq` hands the harness the window `[0, 0)`: with the sample harness the
loop is then run with `n = 0` and `N = 0`, and it completes one iteration (an accumulation
and an error computation over the empty window, with `c0 = (1 - p) / 0`). -/
theorem static_launches_empty_window_on_empty_graph :
    pagerankMonolithicSeq sampleCollaborators specKernels 0 0 none (1/2, 1/1000, 50) =
      sampleCollaborators.pagerankSeq 0 [] 0 0 (pagerankMonolithicSeqLoop specKernels) none
        (1/2, 1/1000, 50) ∧
    (pagerankMonolithicSeq sampleCollaborators specKernels 0 0 none
      (1/2, 1/1000, 50)).iterations = 1 ∧
    (pagerankMonolithicSeqLoopTraced specKernels ([] : List ℚ) [] [] [] [0] [] 0 0 0 (1/2)
      (1/1000) 50 1).2 = [KernelCall.calculate, KernelCall.error] := by
  refine ⟨rfl, by decide!, by decide!⟩

/-- C13, amended.  `pagerankMonolithicSeqDynamic` never hands the harness an empty window:
with `n = 0` its result is `PagerankResult::initial(y, q)` whatever harness and kernels are
plugged in, and otherwise the window size it passes is `n ≠ 0`.  `pagerankMonolithicSeq`
has no such guard: the window size it passes is `xt.order()`, which is `0` exactly for a
graph without vertices.  The loop itself does not check for `n = 0`: with `L ≥ 1` it
performs at least one accumulation and error computation, whatever the window. -/
theorem empty_window_guarded_only_in_dynamic (col : Collaborators G H J O T)
    (K : Kernels T) (x : G) (xt : H) (y : G) (yt : H) (q : Option (List T)) (o : O)
    (ks : J) (n : Nat) (hdyn : col.dynamicVertices x xt y yt = (ks, n)) :
    (n = 0 →
      ∀ (seq : H → J → Nat → Nat → LoopFn T → Option (List T) → O → PagerankResult T)
          (K2 : Kernels T),
        pagerankMonolithicSeqDynamic { col with pagerankSeq := seq } K2 x xt y yt q o =
          PagerankResult.initial col.seedlessRanks y q) ∧
    (n ≠ 0 →
      pagerankMonolithicSeqDynamic col K x xt y yt q o =
        col.pagerankSeq yt ks 0 n (pagerankMonolithicSeqLoop K) q o) ∧
    pagerankMonolithicSeq col K x xt q o =
      col.pagerankSeq xt (col.vertices xt) 0 (col.order xt) (pagerankMonolithicSeqLoop K) q o ∧
    (∀ (a r c f : List T) (vfrom efrom : List Nat) (i N : Nat) (p E : T) (L EF : Int),
      1 ≤ L →
        1 ≤ (pagerankMonolithicSeqLoop K a r c f vfrom efrom i 0 N p E L EF).2 ∧
        1 ≤ (pagerankMonolithicSeqLoopTraced K a r c f vfrom efrom i 0 N p E L EF).2.count
          KernelCall.error) := by
  refine ⟨?_, ?_, rfl, ?_⟩
  · intro hn seq K2
    subst hn
    simp [pagerankMonolithicSeqDynamic, hdyn]
  · intro hn
    simp [pagerankMonolithicSeqDynamic, hdyn, hn]
  · intro a r c f vfrom efrom i N p E L EF hL
    obtain ⟨k, hk1, hk2⟩ := whileLoopTraced_log K f vfrom efrom i 0 ((1 - p) / (N : T)) E L EF
      L.toNat ⟨a, r, c⟩ 0 [] (by omega) (by rw [Int.toNat_of_nonneg (by omega)]; simp)
    have herase := whileLoopTraced_erase K f vfrom efrom i 0 ((1 - p) / (N : T)) E L EF
      L.toNat ⟨a, r, c⟩ 0 []
    constructor
    · show 1 ≤ (whileLoop K f vfrom efrom i 0 ((1 - p) / (N : T)) E L EF L.toNat ⟨a, r, c⟩ 0).2
      rw [← herase, hk1]
      omega
    · show 1 ≤ (whileLoopTraced K f vfrom efrom i 0 ((1 - p) / (N : T)) E L EF L.toNat
        ⟨a, r, c⟩ 0 []).2.count KernelCall.error
      rw [hk2, List.count_append, List.count_append]
      have h2 : lastRound.count KernelCall.error = 1 := by decide
      omega

/-- Witness for the amended C13: the sample collaborators on a changed graph (two vertices
before, three after), where the window handed to the harness has size `3`. -/
theorem empty_window_guarded_only_in_dynamic_witness :
    pagerankMonolithicSeqDynamic sampleCollaborators specKernels 2 2 3 3 none
        (1/2, 1/1000, 50) =
      sampleCollaborators.pagerankSeq 3 (List.range 3) 0 3
        (pagerankMonolithicSeqLoop specKernels) none (1/2, 1/1000, 50) :=
  (empty_window_guarded_only_in_dynamic sampleCollaborators specKernels 2 2 3 3 none
    (1/2, 1/1000, 50) (List.range 3) 3 rfl).2.1 (by decide)

end OrchestrationClaims

end PagerankMonolithic
